import Mathlib

/-!
# sampleCarto: real-time correlative scan matcher and log-odds quantisation

A shallow embedding of `src/core/scan_matching/real_time_correlative_scan_matcher.cc`
and of the inline functions of `src/core/map/submaps.h`.  The classes `Submap` and
`ActiveSubmaps` are only declared in `submaps.h`; their member functions are modelled
from the spec.

Conventions of the embedding.

* `float` and `double` values are exact real numbers: rounding and overflow are not
  modelled.  The one place where the source produces a NaN (`0.f / 0` for an empty
  scan) is discussed at `ScoreCandidates`.  Where a `float` effect decides an
  assertion it is modelled next to the exact function: `ScoreCandidatesFloat` stores
  a score that underflows as zero, and `Create` reads doubles that may be NaN or
  infinite.
* `int` values are unbounded integers; indices into vectors are natural numbers.
* A failed `CHECK`, an out-of-range vector access and a dereferenced `end()`
  iterator all abort the call: the embedded function returns `none`.
* Loops are recursive functions that carry the loop variable and the mutated
  state.
* `std::sort` leaves the order of equal elements open, so `Match` takes the sorting
  routine as an argument and the theorems hold for every routine that meets the
  contract `SortsDescending`.
-/

namespace sample_carto

/-! ## Data model -/

/-- One entry of `SearchParameters::linear_bounds`, in cells. -/
structure LinearBounds where
  min_x : Int
  max_x : Int
  min_y : Int
  max_y : Int

/-- Modelled from the spec: the class `SearchParameters` is declared in a header
that is not part of the sources at hand.  The fields are the ones the scan matcher
reads; `num_scans` is `2 * num_angular_perturbations + 1` when built by the
constructor, and is a natural number here because the scan loops count up from
zero until they meet it. -/
structure SearchParameters where
  num_angular_perturbations : Nat
  angular_perturbation_step_size : ℝ
  resolution : ℝ
  num_scans : Nat
  linear_bounds : List LinearBounds

/-- Modelled from the spec: the struct `Candidate` is declared in a header that is
not part of the sources at hand; the spec lists its seven fields. -/
structure Candidate where
  scan_index : Nat
  x_index_offset : Int
  y_index_offset : Int
  x : ℝ
  y : ℝ
  orientation : ℝ
  score : ℝ

/-- Modelled from the spec: the constructor `Candidate(scan_index, x_index_offset,
y_index_offset, search_parameters)` lives in the missing header.  The spec tags a
candidate with `(x, y, orientation) = (x_offset·r, y_offset·r, k·angular_step)` for
`k = scan_index - num_angular_perturbations`; the score starts at zero. -/
noncomputable def Candidate.make (scan_index : Nat) (x_index_offset y_index_offset : Int)
    (search_parameters : SearchParameters) : Candidate where
  scan_index := scan_index
  x_index_offset := x_index_offset
  y_index_offset := y_index_offset
  x := (x_index_offset : ℝ) * search_parameters.resolution
  y := (y_index_offset : ℝ) * search_parameters.resolution
  orientation := ((scan_index : ℝ) - (search_parameters.num_angular_perturbations : ℝ)) *
    search_parameters.angular_perturbation_step_size
  score := 0

/-- The discrete key `(scan_index, x_index_offset, y_index_offset)` of a candidate. -/
def Candidate.key (c : Candidate) : Nat × Int × Int :=
  (c.scan_index, c.x_index_offset, c.y_index_offset)

/-- Strict lexicographic order on candidate keys. -/
def keyLt (a b : Nat × Int × Int) : Prop :=
  a.1 < b.1 ∨ (a.1 = b.1 ∧ (a.2.1 < b.2.1 ∨ (a.2.1 = b.2.1 ∧ a.2.2 < b.2.2)))

/-! ## GenerateExhaustiveSearchCandidates -/

/-- The first loop of `GenerateExhaustiveSearchCandidates` (lines 54-63), entered at
`scan_index` with the running total `num_candidates`.  The counter starts at zero and
goes up by one, so the test `scan_index != num_scans` is `scan_index < num_scans`. -/
def countLoop (search_parameters : SearchParameters) (scan_index : Nat)
    (num_candidates : Int) : Option Int :=
  if scan_index < search_parameters.num_scans then
    match search_parameters.linear_bounds[scan_index]? with
    | none => none
    | some bounds =>
      let num_linear_x_candidates := bounds.max_x - bounds.min_x + 1
      let num_linear_y_candidates := bounds.max_y - bounds.min_y + 1
      countLoop search_parameters (scan_index + 1)
        (num_candidates + num_linear_x_candidates * num_linear_y_candidates)
  else some num_candidates
termination_by search_parameters.num_scans - scan_index

/-- The innermost loop (lines 71-77), entered at `y_index_offset`; every pass
appends one candidate to `candidates`. -/
noncomputable def yLoop (search_parameters : SearchParameters) (scan_index : Nat)
    (x_index_offset max_y y_index_offset : Int) (candidates : List Candidate) :
    List Candidate :=
  if y_index_offset ≤ max_y then
    yLoop search_parameters scan_index x_index_offset max_y (y_index_offset + 1)
      (candidates ++ [Candidate.make scan_index x_index_offset y_index_offset search_parameters])
  else candidates
termination_by (max_y + 1 - y_index_offset).toNat
decreasing_by omega

/-- The middle loop (lines 68-78), entered at `x_index_offset`. -/
noncomputable def xLoop (search_parameters : SearchParameters) (scan_index : Nat)
    (bounds : LinearBounds) (x_index_offset : Int) (candidates : List Candidate) :
    List Candidate :=
  if x_index_offset ≤ bounds.max_x then
    xLoop search_parameters scan_index bounds (x_index_offset + 1)
      (yLoop search_parameters scan_index x_index_offset bounds.max_y bounds.min_y candidates)
  else candidates
termination_by (bounds.max_x + 1 - x_index_offset).toNat
decreasing_by omega

/-- The outer loop (lines 66-79), entered at `scan_index`; its test is the one of the
first loop. -/
noncomputable def scanLoop (search_parameters : SearchParameters) (scan_index : Nat)
    (candidates : List Candidate) : Option (List Candidate) :=
  if scan_index < search_parameters.num_scans then
    match search_parameters.linear_bounds[scan_index]? with
    | none => none
    | some bounds =>
      scanLoop search_parameters (scan_index + 1)
        (xLoop search_parameters scan_index bounds bounds.min_x candidates)
  else some candidates
termination_by search_parameters.num_scans - scan_index

/-- `RealTimeCorrelativeScanMatcher::GenerateExhaustiveSearchCandidates`. -/
noncomputable def GenerateExhaustiveSearchCandidates (search_parameters : SearchParameters) :
    Option (List Candidate) :=
  match countLoop search_parameters 0 0 with
  | none => none
  | some num_candidates =>
    match scanLoop search_parameters 0 [] with
    | none => none
    | some candidates =>
      if (candidates.length : Int) = num_candidates then some candidates else none

/-! ## ScoreCandidates -/

/-- The four option fields that `RealTimeCorrelativeScanMatcherOptions::Create`
assigns. -/
structure RealTimeCorrelativeScanMatcherOptions where
  linear_search_window_ : ℝ
  angular_search_window_ : ℝ
  translation_delta_cost_weight_ : ℝ
  rotation_delta_cost_weight_ : ℝ

/-- A discrete scan: the cell indices a scan hits at offset `(0, 0)`. -/
abbrev DiscreteScan := List (Int × Int)

/-- A probability grid, seen through `GetProbability`: the scan matcher reads the grid
only by that call, whose body is not part of the sources at hand. -/
abbrev ProbabilityGrid := Int → Int → ℝ

/-- Modelled from the spec: `common::Pow2` is declared in a missing header; the spec
writes the exponent of the penalty as a square. -/
def Pow2 (a : ℝ) : ℝ := a * a

/-- The library function `std::hypot`. -/
noncomputable def hypot (x y : ℝ) : ℝ := Real.sqrt (x * x + y * y)

/-- One pass of the loop over the cells of a discrete scan (lines 143-151):
`candidate.score += probability`. -/
def addProbability (probability_grid : ProbabilityGrid) (candidate : Candidate)
    (xy_index : Int × Int) : Candidate :=
  let proposed_xy_index : Int × Int :=
    (xy_index.1 + candidate.x_index_offset, xy_index.2 + candidate.y_index_offset)
  let probability := probability_grid proposed_xy_index.1 proposed_xy_index.2
  { candidate with score := candidate.score + probability }

/-- The body of the loop over candidates up to the `CHECK_GT` (lines 142-158), for a
candidate whose discrete scan is `scan`. -/
noncomputable def scoreCandidate (options_ : RealTimeCorrelativeScanMatcherOptions)
    (probability_grid : ProbabilityGrid) (scan : DiscreteScan) (candidate : Candidate) :
    Candidate :=
  let c0 : Candidate := { candidate with score := 0 }
  let c1 : Candidate := scan.foldl (addProbability probability_grid) c0
  let c2 : Candidate := { c1 with score := c1.score / (scan.length : ℝ) }
  { c2 with score := c2.score *
      Real.exp (-Pow2 (hypot c2.x c2.y * options_.translation_delta_cost_weight_ +
        |c2.orientation| * options_.rotation_delta_cost_weight_)) }

/-- `RealTimeCorrelativeScanMatcher::ScoreCandidates` on the vector `candidates`; the
result is the vector after the call, or `none` when the call aborts.

For an empty scan the source divides `0.f` by zero, which is NaN, and
`CHECK_GT(NaN, 0.f)` fails; here the quotient is `0`, and `0 > 0` fails as well. -/
noncomputable def ScoreCandidates (options_ : RealTimeCorrelativeScanMatcherOptions)
    (probability_grid : ProbabilityGrid) (discrete_scans : List DiscreteScan) :
    List Candidate → Option (List Candidate)
  | [] => some []
  | candidate :: rest =>
    match discrete_scans[candidate.scan_index]? with
    | none => none
    | some scan =>
      let scored := scoreCandidate options_ probability_grid scan candidate
      if scored.score > 0 then
        match ScoreCandidates options_ probability_grid discrete_scans rest with
        | none => none
        | some rest_scored => some (scored :: rest_scored)
      else none

/-! ## Match -/

/-- The library type `Eigen::Rotation2Dd`: a rotation of the plane stored as its
angle. -/
structure Rotation2Dd where
  angle : ℝ

/-- Composition of two `Eigen::Rotation2Dd` (`operator*`): the angles add. -/
def Rotation2Dd.compose (a b : Rotation2Dd) : Rotation2Dd := ⟨a.angle + b.angle⟩

/-- Modelled from the spec: `transform::Rigid2d` is declared in a missing header; a
2D pose is a translation and a rotation. -/
structure Rigid2d where
  translation : ℝ × ℝ
  rotation : Rotation2Dd

/-- Modelled from the spec: `Candidate::operator<` is declared in the missing
header; the spec orders candidates by score. -/
def Candidate.lt (a b : Candidate) : Prop := a.score < b.score

/-- Modelled from the spec: `Candidate::operator>` is declared in the missing
header; the spec sorts candidates "descending by score". -/
def Candidate.gt (a b : Candidate) : Prop := a.score > b.score

/-- The loop of `std::max_element` after its first step: `largest` is the index of
the largest element so far, `largest_value` that element, `i` the index of the head
of the remaining range. -/
noncomputable def maxElementLoop (largest : Nat) (largest_value : Candidate) (i : Nat) :
    List Candidate → Nat
  | [] => largest
  | c :: rest =>
    if largest_value.score < c.score then maxElementLoop i c (i + 1) rest
    else maxElementLoop largest largest_value (i + 1) rest

/-- The library function `std::max_element` with `operator<`: the index of the first
largest element, or `none` for an empty range (where it returns `end()`). -/
noncomputable def max_element : List Candidate → Option Nat
  | [] => none
  | c :: rest => some (maxElementLoop 0 c 1 rest)

/-- What the contract of `std::sort(first, last, std::greater<Candidate>())` promises
of a sorting routine: the result is a rearrangement of the input in which no later
element is greater than an earlier one.  The order of equal elements is left open. -/
def SortsDescending (sort : List Candidate → List Candidate) : Prop :=
  ∀ l, (sort l).Perm l ∧ (sort l).Pairwise (fun a b => ¬ Candidate.gt b a)

/-- The ambiguity loop of `Match` (lines 116-128) from index `i` on, where the
argument list is `candidates[i..]` and `front` is `candidates[0]`.  The result is
`true` when the loop leaves through `return 0`. -/
noncomputable def ambiguityLoop (front : Candidate) : List Candidate → Bool
  | [] => false
  | ci :: rest =>
    if front.score * 0.95 > ci.score then false
    else
      let diff := Real.sqrt ((ci.x - front.x) * (ci.x - front.x) +
        (ci.y - front.y) * (ci.y - front.y))
      if diff ≥ 0.2 then true else ambiguityLoop front rest

/-- The whole ambiguity loop on the sorted vector. -/
noncomputable def rejectsAsAmbiguous (candidates : List Candidate) : Bool :=
  match candidates with
  | [] => false
  | front :: _ => ambiguityLoop front candidates

/-- Lines 111-134 of `Match`, on the vector `candidates` that `ScoreCandidates` has
filled in.  `pose_estimate` is the value `*pose_estimate` holds on entry; the result
is the returned number and the value `*pose_estimate` holds on return.

`best_candidate` is a reference to the element `std::max_element` points at, that is
to a slot of the vector; `std::sort` then rearranges the vector in place, so the
later reads of `best_candidate` see whatever the sort left in that slot. -/
noncomputable def selectBest (sort : List Candidate → List Candidate)
    (initial_pose_estimate : Rigid2d) (candidates : List Candidate)
    (pose_estimate : Rigid2d) : Option (ℝ × Rigid2d) :=
  match max_element candidates with
  | none => none
  | some best_slot =>
    let sorted := sort candidates
    if rejectsAsAmbiguous sorted then some (0, pose_estimate)
    else
      match sorted[best_slot]? with
      | none => none
      | some best_candidate =>
        some (best_candidate.score,
          { translation := (initial_pose_estimate.translation.1 + best_candidate.x,
                            initial_pose_estimate.translation.2 + best_candidate.y)
            rotation := initial_pose_estimate.rotation.compose ⟨best_candidate.orientation⟩ })

/-- `RealTimeCorrelativeScanMatcher::Match`.  The search parameters and the discrete
scans are computed from the point cloud by functions that are not part of the sources
at hand (`SearchParameters`, `GenerateRotatedScans`, `DiscretizeScans`), so they are
arguments here; `sort` is the sorting routine behind `std::sort`. -/
noncomputable def Match (sort : List Candidate → List Candidate)
    (options_ : RealTimeCorrelativeScanMatcherOptions)
    (search_parameters : SearchParameters) (discrete_scans : List DiscreteScan)
    (initial_pose_estimate : Rigid2d) (probability_grid : ProbabilityGrid)
    (pose_estimate : Rigid2d) : Option (ℝ × Rigid2d) :=
  match GenerateExhaustiveSearchCandidates search_parameters with
  | none => none
  | some generated =>
    match ScoreCandidates options_ probability_grid discrete_scans generated with
    | none => none
    | some candidates => selectBest sort initial_pose_estimate candidates pose_estimate

/-! ## Closed forms used in the proofs -/

/-- The values `lo, lo + 1, ..., hi` that a loop `for (i = lo; i <= hi; ++i)` visits. -/
def intRange (lo hi : Int) : List Int :=
  (List.range (hi + 1 - lo).toNat).map (fun (i : Nat) => lo + (i : Int))

/-- The candidates the two inner loops append for the scan `s` with bounds `b`. -/
noncomputable def scanCandidates (sp : SearchParameters) (s : Nat) (b : LinearBounds) :
    List Candidate :=
  (intRange b.min_x b.max_x).flatMap (fun x =>
    (intRange b.min_y b.max_y).map (fun y => Candidate.make s x y sp))

/-- The candidates of the scan `s`, looked up in `linear_bounds`. -/
noncomputable def candidatesOfScan (sp : SearchParameters) (s : Nat) : List Candidate :=
  match sp.linear_bounds[s]? with
  | some b => scanCandidates sp s b
  | none => []

/-- The number of candidates the first loop counts for the scan `s`. -/
def countOfScan (sp : SearchParameters) (s : Nat) : Int :=
  match sp.linear_bounds[s]? with
  | some b => (b.max_x - b.min_x + 1) * (b.max_y - b.min_y + 1)
  | none => 0

/-- Every scan has bounds with `min_x ≤ max_x` and `min_y ≤ max_y`, and there is one
entry of `linear_bounds` per scan. -/
def SearchParameters.WellFormed (sp : SearchParameters) : Prop :=
  sp.linear_bounds.length = sp.num_scans ∧
    ∀ b ∈ sp.linear_bounds, b.min_x ≤ b.max_x ∧ b.min_y ≤ b.max_y

/-- The candidates of all scans, scan by scan. -/
noncomputable def allCandidates (sp : SearchParameters) : List Candidate :=
  (List.range sp.num_scans).flatMap (candidatesOfScan sp)

/-! ## The score in the words of the spec, and sample inputs -/

/-- The discrete scan `discrete_scans[candidate.scan_index]`, empty when the index is
out of range. -/
def scanOf (discrete_scans : List DiscreteScan) (candidate : Candidate) : DiscreteScan :=
  (discrete_scans[candidate.scan_index]?).getD []

/-- The mean probability in the words of the spec:
`(1/|S|) · Σ_{c ∈ S} grid.GetProbability(c + (x_off, y_off))`. -/
noncomputable def meanProbability (probability_grid : ProbabilityGrid) (S : DiscreteScan)
    (candidate : Candidate) : ℝ :=
  (1 / (S.length : ℝ)) *
    (S.map (fun c => probability_grid (c.1 + candidate.x_index_offset)
      (c.2 + candidate.y_index_offset))).sum

/-- The penalty in the words of the spec: `exp(−(‖(x,y)‖·λ_t + |θ|·λ_r)²)`. -/
noncomputable def penaltyFactor (options_ : RealTimeCorrelativeScanMatcherOptions)
    (candidate : Candidate) : ℝ :=
  Real.exp (-(Real.sqrt (candidate.x ^ 2 + candidate.y ^ 2) *
      options_.translation_delta_cost_weight_ +
    |candidate.orientation| * options_.rotation_delta_cost_weight_) ^ 2)

/-- The score in the words of the spec: mean probability times penalty. -/
noncomputable def claimedScore (options_ : RealTimeCorrelativeScanMatcherOptions)
    (probability_grid : ProbabilityGrid) (discrete_scans : List DiscreteScan)
    (candidate : Candidate) : ℝ :=
  meanProbability probability_grid (scanOf discrete_scans candidate) candidate *
    penaltyFactor options_ candidate

/-- Every candidate of the list has a discrete scan, and that scan has a point. -/
def HaveScans (discrete_scans : List DiscreteScan) (candidates : List Candidate) : Prop :=
  ∀ c ∈ candidates, ∃ S, discrete_scans[c.scan_index]? = some S ∧ S ≠ []

/-- Options with both cost weights zero. -/
noncomputable def zeroWeightOptions : RealTimeCorrelativeScanMatcherOptions where
  linear_search_window_ := 0.1
  angular_search_window_ := 0
  translation_delta_cost_weight_ := 0
  rotation_delta_cost_weight_ := 0

/-- A grid in which every cell is unknown. -/
noncomputable def unknownGrid : ProbabilityGrid := fun _ _ => 0.5

/-- One scan with the single cell `(0, 0)`. -/
def singleCellScans : List DiscreteScan := [[(0, 0)]]

/-- The candidate of scan 0 with zero offsets. -/
noncomputable def originCandidate : Candidate where
  scan_index := 0
  x_index_offset := 0
  y_index_offset := 0
  x := 0
  y := 0
  orientation := 0
  score := 0

/-! ## Names for the quantities of Match -/

/-- The distance the ambiguity loop computes between a candidate and the front. -/
noncomputable def planarDistance (a b : Candidate) : ℝ :=
  Real.sqrt ((a.x - b.x) ^ 2 + (a.y - b.y) ^ 2)

/-- The pose `Match` builds from a candidate (lines 129-132). -/
def refinedPose (initial_pose_estimate : Rigid2d) (best : Candidate) : Rigid2d where
  translation := (initial_pose_estimate.translation.1 + best.x,
                  initial_pose_estimate.translation.2 + best.y)
  rotation := initial_pose_estimate.rotation.compose ⟨best.orientation⟩

/-! ## Sample inputs for Match -/

/-- A sorting routine that meets the contract of `std::sort` with
`std::greater<Candidate>`: insertion sort, which keeps equal elements in their input
order. -/
noncomputable def stableSort (l : List Candidate) : List Candidate :=
  List.insertionSort (fun a b => a.score ≥ b.score) l

/-- Search parameters with one scan and a window of one cell around the origin. -/
noncomputable def peakSearchParameters : SearchParameters where
  num_angular_perturbations := 0
  angular_perturbation_step_size := 0.01
  resolution := 0.05
  num_scans := 1
  linear_bounds := [⟨-1, 1, -1, 1⟩]

/-- A grid that is unknown except for one occupied cell at `(0, 0)`. -/
noncomputable def peakGrid : ProbabilityGrid :=
  fun x y => if x = 0 ∧ y = 0 then 0.9 else 0.5

/-- The pose with zero translation and zero rotation. -/
noncomputable def originPose : Rigid2d where
  translation := (0, 0)
  rotation := ⟨0⟩

/-- The candidate of scan 0 at the given offsets, carrying the given score. -/
noncomputable def scoredAt (sp : SearchParameters) (x_index_offset y_index_offset : Int)
    (score : ℝ) : Candidate :=
  { Candidate.make 0 x_index_offset y_index_offset sp with score := score }

/-- The scored candidates of the peak example, in the order they are generated. -/
noncomputable def peakScored : List Candidate :=
  [scoredAt peakSearchParameters (-1) (-1) 0.5, scoredAt peakSearchParameters (-1) 0 0.5,
   scoredAt peakSearchParameters (-1) 1 0.5, scoredAt peakSearchParameters 0 (-1) 0.5,
   scoredAt peakSearchParameters 0 0 0.9, scoredAt peakSearchParameters 0 1 0.5,
   scoredAt peakSearchParameters 1 (-1) 0.5, scoredAt peakSearchParameters 1 0 0.5,
   scoredAt peakSearchParameters 1 1 0.5]

/-- Search parameters with one scan, cells of 0.2 m and the x offsets `0..1`. -/
noncomputable def twinSearchParameters : SearchParameters where
  num_angular_perturbations := 0
  angular_perturbation_step_size := 0.01
  resolution := 0.2
  num_scans := 1
  linear_bounds := [⟨0, 1, 0, 0⟩]

/-- The scored candidates of the twin example on the unknown grid. -/
noncomputable def twinScored : List Candidate :=
  [scoredAt twinSearchParameters 0 0 0.5, scoredAt twinSearchParameters 1 0 0.5]

/-! ## ProbabilityToLogOddsInteger -/

/-- Modelled from the spec: `kMinProbability` is defined in a header that is not part
of the sources at hand; the spec fixes `p_min = 0.1`. -/
noncomputable def kMinProbability : ℝ := 0.1

/-- Modelled from the spec: `kMaxProbability` is defined in a header that is not part
of the sources at hand; the spec fixes `p_max = 0.9`. -/
noncomputable def kMaxProbability : ℝ := 0.9

/-- Modelled from the spec: `common::RoundToInt` is declared in a missing header; the
spec writes `round`.  Rounding is to the nearest integer, with halves away from zero
as `std::lround` does. -/
noncomputable def RoundToInt (x : ℝ) : Int :=
  if 0 ≤ x then ⌊x + 1 / 2⌋ else ⌈x - 1 / 2⌉

/-- `Logit`: converts the given probability to log odds. -/
noncomputable def Logit (probability : ℝ) : ℝ :=
  Real.log (probability / (1 - probability))

/-- The constant `kMaxLogOdds`. -/
noncomputable def kMaxLogOdds : ℝ := Logit kMaxProbability

/-- The constant `kMinLogOdds`. -/
noncomputable def kMinLogOdds : ℝ := Logit kMinProbability

/-- `ProbabilityToLogOddsInteger`: `none` when one of the two `CHECK`s fails, else the
`uint8` the `int` value converts to. -/
noncomputable def ProbabilityToLogOddsInteger (probability : ℝ) : Option Nat :=
  let value : Int :=
    RoundToInt ((Logit probability - kMinLogOdds) * 254 / (kMaxLogOdds - kMinLogOdds)) + 1
  if 1 ≤ value then
    if 255 ≥ value then some (value % 256).toNat else none
  else none

/-- The scaled log odds that `ProbabilityToLogOddsInteger` rounds. -/
noncomputable def scaledLogOdds (probability : ℝ) : ℝ :=
  (Logit probability - kMinLogOdds) * 254 / (kMaxLogOdds - kMinLogOdds)

/-! ## The precomputed count, and a caller's pose -/

/-- The count the first loop of `GenerateExhaustiveSearchCandidates` is meant to reach:
the sum over the scans of `(max_x - min_x + 1) * (max_y - min_y + 1)`. -/
def expectedNumCandidates (sp : SearchParameters) : Int :=
  (sp.linear_bounds.map (fun b => (b.max_x - b.min_x + 1) * (b.max_y - b.min_y + 1))).sum

/-- A pose that differs from the origin pose, to stand for the caller's value of
`*pose_estimate`. -/
noncomputable def poseOneTwoThree : Rigid2d where
  translation := (1, 2)
  rotation := ⟨3⟩

/-! ## Submap and ActiveSubmaps -/

/-- A scan handed to `InsertRangeData`, identified by its sequence number; what the
scan contains plays no role in the rotation of the submaps. -/
abbrev RangeData := Nat

/-- Modelled from the spec: `Submap` is only declared in `submaps.h`, its member
functions are defined in a file that is not part of the sources at hand.  The spec
gives a submap a counter `num_range_data` and a flag `finished`; `origin` is the scan
at whose origin the submap was created, and `inserted` lists the scans the grid has
received, in order. -/
structure Submap where
  origin : RangeData
  num_range_data : Nat
  finished : Bool
  inserted : List RangeData
deriving DecidableEq

/-- Modelled from the spec: the constructor `Submap(limits, origin)`; the header
initialises `finished_ = false` and `num_range_data_ = 0`. -/
def Submap.create (origin : RangeData) : Submap where
  origin := origin
  num_range_data := 0
  finished := false
  inserted := []

/-- Modelled from the spec: `Submap::InsertRangeData` "requires `!finished`; delegates
to inserter; increments `num_range_data`".  Inserting into a finished submap is an
invariant violation: `none`. -/
def Submap.InsertRangeData (submap : Submap) (range_data : RangeData) : Option Submap :=
  if submap.finished then none
  else some { submap with
    num_range_data := submap.num_range_data + 1
    inserted := submap.inserted ++ [range_data] }

/-- Modelled from the spec: `Submap::Finish` "sets `finished = true`". -/
def Submap.Finish (submap : Submap) : Submap :=
  { submap with finished := true }

/-- Modelled from the spec: `ActiveSubmaps` is only declared in `submaps.h`.  The
fields are the ones of the header (`options_.num_range_data_`,
`matching_submap_index_`, `submaps_`); `retired_` collects the submaps the object has
finished and forgotten, which other holders of the shared handle still see. -/
structure ActiveSubmaps where
  num_range_data_ : Nat
  matching_submap_index_ : Nat
  submaps_ : List Submap
  retired_ : List Submap
deriving DecidableEq

/-- Modelled from the spec: a fresh `ActiveSubmaps` is empty ("Initial: empty; first scan
triggers creation of `submaps[0]`"), with `matching_submap_index_ = 0` as in the
header. -/
def ActiveSubmaps.fresh (num_range_data : Nat) : ActiveSubmaps where
  num_range_data_ := num_range_data
  matching_submap_index_ := 0
  submaps_ := []
  retired_ := []

/-- Modelled from the spec: `ActiveSubmaps::InsertRangeData` is defined in a file that
is not part of the sources at hand.  The state machine of the spec:
* S0 (empty): "on first `InsertRangeData`, create submap at scan origin", then go on as
  in S1;
* S1 (one submap): insert; "when `submaps[0].num_range_data == N` ... append a new submap
  at current scan origin";
* S2 (two submaps): "insert into every submap currently in `submaps`"; "when
  `submaps.back().num_range_data == N`, the front submap is finished and removed;
  `matching_submap_index` is incremented by one; a new submap is created at the current
  scan origin and appended".
More than two submaps is not a state of the machine: `none`. -/
def ActiveSubmaps.InsertRangeData (s : ActiveSubmaps) (range_data : RangeData) :
    Option ActiveSubmaps :=
  let submaps := if s.submaps_ = [] then [Submap.create range_data] else s.submaps_
  match submaps with
  | [only] =>
    match only.InsertRangeData range_data with
    | none => none
    | some only1 =>
      if only1.num_range_data = s.num_range_data_ then
        some { s with submaps_ := [only1, Submap.create range_data] }
      else some { s with submaps_ := [only1] }
  | [front, back] =>
    match front.InsertRangeData range_data, back.InsertRangeData range_data with
    | some front1, some back1 =>
      if back1.num_range_data = s.num_range_data_ then
        some { s with
          matching_submap_index_ := s.matching_submap_index_ + 1
          submaps_ := [back1, Submap.create range_data]
          retired_ := s.retired_ ++ [front1.Finish] }
      else some { s with submaps_ := [front1, back1] }
    | _, _ => none
  | _ => none

/-- Feeding a sequence of scans, one `InsertRangeData` call per scan. -/
def ActiveSubmaps.feed (s : ActiveSubmaps) : List RangeData → Option ActiveSubmaps
  | [] => some s
  | range_data :: rest =>
    match s.InsertRangeData range_data with
    | none => none
    | some s1 => s1.feed rest

/-- The state a fresh `ActiveSubmaps` with threshold `N` is in after the scans `fed`,
for at most `2 * N` scans. -/
def stateAfter (N : Nat) (fed : List RangeData) : ActiveSubmaps :=
  if fed.length = 0 then ActiveSubmaps.fresh N
  else if fed.length < N then
    { num_range_data_ := N, matching_submap_index_ := 0,
      submaps_ := [⟨fed.headD 0, fed.length, false, fed⟩], retired_ := [] }
  else if fed.length < 2 * N then
    { num_range_data_ := N, matching_submap_index_ := 0,
      submaps_ := [⟨fed.headD 0, fed.length, false, fed⟩,
        ⟨fed.getD (N - 1) 0, fed.length - N, false, fed.drop N⟩],
      retired_ := [] }
  else
    { num_range_data_ := N, matching_submap_index_ := 1,
      submaps_ := [⟨fed.getD (N - 1) 0, N, false, fed.drop N⟩,
        Submap.create (fed.getD (2 * N - 1) 0)],
      retired_ := [⟨fed.headD 0, fed.length, true, fed⟩] }

/-! ## RealTimeCorrelativeScanMatcherOptions::Create -/

/-- A value of type `double`: not-a-number, an infinity, or a real number (rounding is
not modelled). -/
inductive DoubleValue where
  | nan : DoubleValue
  | negInf : DoubleValue
  | finite (x : ℝ) : DoubleValue
  | posInf : DoubleValue

/-- The comparison `value >= 0.` of `CHECK_GE(value, 0.)`; it is false for NaN. -/
def DoubleValue.GeZero : DoubleValue → Prop
  | .finite x => 0 ≤ x
  | .posInf => True
  | _ => False

/-- The value is negative. -/
def DoubleValue.Negative : DoubleValue → Prop
  | .finite x => x < 0
  | .negInf => True
  | _ => False

/-- A parameter dictionary, seen through `GetDouble`: the class
`common::LuaParameterDictionary` is not part of the sources at hand, and `Create` reads
it only by that call.  `none` stands for a call that does not return (the key is
missing or does not hold a number). -/
abbrev LuaParameterDictionary := String → Option DoubleValue

/-- The four member variables of `RealTimeCorrelativeScanMatcherOptions` as doubles, the
way `Create` leaves them. -/
structure ConfiguredOptions where
  linear_search_window_ : DoubleValue
  angular_search_window_ : DoubleValue
  translation_delta_cost_weight_ : DoubleValue
  rotation_delta_cost_weight_ : DoubleValue

/-- The outcome of `CHECK_GE(value, 0.)` is what the `if` of the embedding tests. -/
noncomputable instance DoubleValue.decidableGeZero (d : DoubleValue) : Decidable d.GeZero :=
  Classical.propDecidable _

/-- `RealTimeCorrelativeScanMatcherOptions::Create`: the member variables after the call,
or `none` when a `GetDouble` does not return or one of the two `CHECK_GE` fails. -/
noncomputable def RealTimeCorrelativeScanMatcherOptions.Create
    (parameter_dictionary : LuaParameterDictionary) : Option ConfiguredOptions :=
  match parameter_dictionary "linear_search_window" with
  | none => none
  | some linear_search_window_ =>
    match parameter_dictionary "angular_search_window" with
    | none => none
    | some angular_search_window_ =>
      match parameter_dictionary "translation_delta_cost_weight" with
      | none => none
      | some translation_delta_cost_weight_ =>
        match parameter_dictionary "rotation_delta_cost_weight" with
        | none => none
        | some rotation_delta_cost_weight_ =>
          if translation_delta_cost_weight_.GeZero then
            if rotation_delta_cost_weight_.GeZero then
              some { linear_search_window_ := linear_search_window_
                     angular_search_window_ := angular_search_window_
                     translation_delta_cost_weight_ := translation_delta_cost_weight_
                     rotation_delta_cost_weight_ := rotation_delta_cost_weight_ }
            else none
          else none

/-- A dictionary that holds all four keys, with a NaN translation weight. -/
noncomputable def nanWeightDictionary : LuaParameterDictionary :=
  fun key => if key = "translation_delta_cost_weight" then some .nan
    else some (.finite 0.1)

/-! ## Sample input with two tied maxima generated last -/

theorem intRange_of_gt {lo hi : Int} (h : hi < lo) : intRange lo hi = [] := by
  have : (hi + 1 - lo).toNat = 0 := by omega
  simp [intRange, this]

theorem intRange_of_le {lo hi : Int} (h : lo ≤ hi) :
    intRange lo hi = lo :: intRange (lo + 1) hi := by
  have : (hi + 1 - lo).toNat = (hi + 1 - (lo + 1)).toNat + 1 := by omega
  simp only [intRange, this, List.range_succ_eq_map, List.map_cons, List.map_map]
  simp only [Nat.cast_zero, add_zero, List.cons.injEq, true_and]
  apply List.map_congr_left
  intro a _
  simp only [Function.comp, Nat.cast_succ]
  ring

theorem mem_intRange {lo hi z : Int} : z ∈ intRange lo hi ↔ lo ≤ z ∧ z ≤ hi := by
  simp only [intRange, List.mem_map, List.mem_range]
  constructor
  · rintro ⟨i, hi', rfl⟩
    omega
  · intro h
    exact ⟨(z - lo).toNat, by omega, by omega⟩

theorem length_intRange (lo hi : Int) : (intRange lo hi).length = (hi + 1 - lo).toNat := by
  simp [intRange]

theorem pairwise_intRange (lo hi : Int) : (intRange lo hi).Pairwise (· < ·) := by
  simp only [intRange, List.pairwise_map]
  exact (List.pairwise_lt_range _).imp (by intro a b h; omega)

theorem yLoop_eq (sp : SearchParameters) (s : Nat) (x max_y y : Int) (acc : List Candidate) :
    yLoop sp s x max_y y acc =
      acc ++ (intRange y max_y).map (fun y => Candidate.make s x y sp) := by
  induction y, acc using yLoop.induct sp s x max_y with
  | case1 y acc h ih =>
    rw [yLoop, if_pos h, ih, intRange_of_le h]
    simp
  | case2 y acc h =>
    rw [yLoop, if_neg h, intRange_of_gt (by omega)]
    simp

theorem xLoop_eq (sp : SearchParameters) (s : Nat) (b : LinearBounds) (x : Int)
    (acc : List Candidate) :
    xLoop sp s b x acc =
      acc ++ (intRange x b.max_x).flatMap (fun x =>
        (intRange b.min_y b.max_y).map (fun y => Candidate.make s x y sp)) := by
  induction x, acc using xLoop.induct sp s b with
  | case1 x acc h ih =>
    rw [xLoop, if_pos h, ih, yLoop_eq, intRange_of_le h]
    simp
  | case2 x acc h =>
    rw [xLoop, if_neg h, intRange_of_gt (by omega)]
    simp

theorem scanLoop_eq (sp : SearchParameters) (hlen : sp.num_scans ≤ sp.linear_bounds.length)
    (s : Nat) (acc : List Candidate) :
    scanLoop sp s acc =
      some (acc ++ (List.range' s (sp.num_scans - s)).flatMap (candidatesOfScan sp)) := by
  induction s, acc using scanLoop.induct sp with
  | case1 s acc h hnone =>
    have := List.getElem?_eq_none_iff.mp hnone
    omega
  | case2 s acc h b hb ih =>
    rw [scanLoop, if_pos h]
    simp only [hb]
    rw [ih]
    have hn : sp.num_scans - s = (sp.num_scans - (s + 1)) + 1 := by omega
    rw [hn, List.range'_succ]
    simp [candidatesOfScan, hb, scanCandidates, xLoop_eq]
  | case3 s acc h =>
    rw [scanLoop, if_neg h]
    have hn : sp.num_scans - s = 0 := by omega
    simp [hn]

theorem countLoop_eq (sp : SearchParameters) (hlen : sp.num_scans ≤ sp.linear_bounds.length)
    (s : Nat) (n : Int) :
    countLoop sp s n =
      some (n + ((List.range' s (sp.num_scans - s)).map (countOfScan sp)).sum) := by
  induction s, n using countLoop.induct sp with
  | case1 s n h hnone =>
    have := List.getElem?_eq_none_iff.mp hnone
    omega
  | case2 s n h b hb nx ny ih =>
    rw [countLoop, if_pos h]
    simp only [hb]
    rw [ih]
    have hn : sp.num_scans - s = (sp.num_scans - (s + 1)) + 1 := by omega
    rw [hn, List.range'_succ]
    simp [countOfScan, hb, nx, ny, add_assoc]
  | case3 s n h =>
    rw [countLoop, if_neg h]
    have hn : sp.num_scans - s = 0 := by omega
    simp [hn]

theorem length_scanCandidates (sp : SearchParameters) (s : Nat) (b : LinearBounds) :
    (scanCandidates sp s b).length =
      (b.max_x + 1 - b.min_x).toNat * (b.max_y + 1 - b.min_y).toNat := by
  simp [scanCandidates, List.length_flatMap, length_intRange, Function.comp_def]

theorem length_candidatesOfScan (sp : SearchParameters) (hwf : sp.WellFormed) (s : Nat) :
    ((candidatesOfScan sp s).length : Int) = countOfScan sp s := by
  unfold candidatesOfScan countOfScan
  cases hb : sp.linear_bounds[s]? with
  | none => simp
  | some b =>
    have hmem : b ∈ sp.linear_bounds := List.getElem?_mem hb
    obtain ⟨hx, hy⟩ := hwf.2 b hmem
    simp only [length_scanCandidates, Nat.cast_mul]
    rw [Int.toNat_of_nonneg (by omega), Int.toNat_of_nonneg (by omega)]
    ring

theorem length_allCandidates (sp : SearchParameters) (hwf : sp.WellFormed) :
    ((allCandidates sp).length : Int) = ((List.range sp.num_scans).map (countOfScan sp)).sum := by
  unfold allCandidates
  rw [List.length_flatMap]
  induction List.range sp.num_scans with
  | nil => simp
  | cons s l ih =>
    simp only [List.map_cons, List.sum_cons, Nat.cast_add, Function.comp] at ih ⊢
    rw [ih, length_candidatesOfScan sp hwf]

theorem generate_eq (sp : SearchParameters) (hwf : sp.WellFormed) :
    GenerateExhaustiveSearchCandidates sp = some (allCandidates sp) := by
  have hlen : sp.num_scans ≤ sp.linear_bounds.length := le_of_eq hwf.1.symm
  unfold GenerateExhaustiveSearchCandidates
  rw [countLoop_eq sp hlen, scanLoop_eq sp hlen]
  simp only [Nat.sub_zero, List.nil_append, zero_add, ← List.range_eq_range']
  have hcount := length_allCandidates sp hwf
  unfold allCandidates at hcount ⊢
  rw [if_pos hcount]

theorem mem_candidatesOfScan {sp : SearchParameters} {s : Nat} {c : Candidate} :
    c ∈ candidatesOfScan sp s ↔
      ∃ b, sp.linear_bounds[s]? = some b ∧
        ∃ x y, (b.min_x ≤ x ∧ x ≤ b.max_x) ∧ (b.min_y ≤ y ∧ y ≤ b.max_y) ∧
          c = Candidate.make s x y sp := by
  unfold candidatesOfScan
  cases hb : sp.linear_bounds[s]? with
  | none => simp
  | some b =>
    simp only [scanCandidates, List.mem_flatMap, List.mem_map, mem_intRange, Option.some.injEq,
      exists_eq_left']
    constructor
    · rintro ⟨x, hx, y, hy, rfl⟩
      exact ⟨x, y, hx, hy, rfl⟩
    · rintro ⟨x, y, hx, hy, rfl⟩
      exact ⟨x, hx, y, hy, rfl⟩

theorem mem_allCandidates {sp : SearchParameters} {c : Candidate} :
    c ∈ allCandidates sp ↔
      ∃ s, s < sp.num_scans ∧ ∃ b, sp.linear_bounds[s]? = some b ∧
        ∃ x y, (b.min_x ≤ x ∧ x ≤ b.max_x) ∧ (b.min_y ≤ y ∧ y ≤ b.max_y) ∧
          c = Candidate.make s x y sp := by
  simp only [allCandidates, List.mem_flatMap, List.mem_range, mem_candidatesOfScan]

theorem pairwise_key_allCandidates (sp : SearchParameters) :
    ((allCandidates sp).map Candidate.key).Pairwise keyLt := by
  rw [List.pairwise_map]
  unfold allCandidates
  rw [List.pairwise_flatMap]
  constructor
  · intro s _
    unfold candidatesOfScan
    cases hb : sp.linear_bounds[s]? with
    | none => simp
    | some b =>
      simp only [scanCandidates]
      rw [List.pairwise_flatMap]
      constructor
      · intro x _
        rw [List.pairwise_map]
        exact (pairwise_intRange _ _).imp (by
          intro y1 y2 h
          simp [keyLt, Candidate.key, Candidate.make, h])
      · exact (pairwise_intRange _ _).imp (by
          intro x1 x2 h c1 h1 c2 h2
          simp only [List.mem_map] at h1 h2
          obtain ⟨y1, _, rfl⟩ := h1
          obtain ⟨y2, _, rfl⟩ := h2
          simp [keyLt, Candidate.key, Candidate.make, h])
  · exact (List.pairwise_lt_range _).imp (by
      intro s1 s2 h c1 h1 c2 h2
      obtain ⟨b1, _, x1, y1, _, _, rfl⟩ := mem_candidatesOfScan.mp h1
      obtain ⟨b2, _, x2, y2, _, _, rfl⟩ := mem_candidatesOfScan.mp h2
      simp [keyLt, Candidate.key, Candidate.make, h])

theorem keyLt_irrefl (a : Nat × Int × Int) : ¬ keyLt a a := by
  simp [keyLt]

/-- C3. For search parameters with one bounds entry per scan and `min ≤ max` in every
entry, `GenerateExhaustiveSearchCandidates` returns a list in which the keys
`(scan_index, x_index_offset, y_index_offset)` are exactly the triples inside the
bounds of their scan, each key occurs once, every candidate is the one the constructor
builds for its key, and the keys increase strictly in lexicographic order. -/
theorem generate_exhaustive_spec (sp : SearchParameters) (hwf : sp.WellFormed) :
    ∃ candidates, GenerateExhaustiveSearchCandidates sp = some candidates ∧
      (∀ s x y, (s, x, y) ∈ candidates.map Candidate.key ↔
        s < sp.num_scans ∧ ∃ b, sp.linear_bounds[s]? = some b ∧
          (b.min_x ≤ x ∧ x ≤ b.max_x) ∧ (b.min_y ≤ y ∧ y ≤ b.max_y)) ∧
      (candidates.map Candidate.key).Nodup ∧
      (∀ c ∈ candidates,
        c = Candidate.make c.scan_index c.x_index_offset c.y_index_offset sp) ∧
      (candidates.map Candidate.key).Pairwise keyLt := by
  refine ⟨allCandidates sp, generate_eq sp hwf, ?_, ?_, ?_, pairwise_key_allCandidates sp⟩
  · intro s x y
    simp only [List.mem_map, mem_allCandidates]
    constructor
    · rintro ⟨c, ⟨s1, hs, b, hb, x1, y1, hx, hy, rfl⟩, hk⟩
      simp only [Candidate.key, Candidate.make, Prod.mk.injEq] at hk
      obtain ⟨rfl, rfl, rfl⟩ := hk
      exact ⟨hs, b, hb, hx, hy⟩
    · rintro ⟨hs, b, hb, hx, hy⟩
      exact ⟨Candidate.make s x y sp, ⟨s, hs, b, hb, x, y, hx, hy, rfl⟩, rfl⟩
  · exact (pairwise_key_allCandidates sp).imp (by
      intro a b h hab
      subst hab
      exact keyLt_irrefl a h)
  · intro c hc
    obtain ⟨s, _, b, _, x, y, _, _, rfl⟩ := mem_allCandidates.mp hc
    rfl

/-! ## ScoreCandidates -/

theorem foldl_addProbability (g : ProbabilityGrid) (S : DiscreteScan) (c : Candidate) :
    S.foldl (addProbability g) c =
      { c with score := c.score +
          (S.map (fun p => g (p.1 + c.x_index_offset) (p.2 + c.y_index_offset))).sum } := by
  induction S generalizing c with
  | nil => simp
  | cons p S ih =>
    rw [List.foldl_cons, ih]
    simp [addProbability, add_assoc]

theorem scoreCandidate_eq (o : RealTimeCorrelativeScanMatcherOptions) (g : ProbabilityGrid)
    (S : DiscreteScan) (c : Candidate) :
    scoreCandidate o g S c =
      { c with score := meanProbability g S c * penaltyFactor o c } := by
  simp only [scoreCandidate, foldl_addProbability, meanProbability, penaltyFactor, Pow2, hypot]
  congr 1
  simp only [sq]
  ring

theorem scoreCandidates_eq_some_iff (o : RealTimeCorrelativeScanMatcherOptions)
    (g : ProbabilityGrid) (scans : List DiscreteScan) (candidates result : List Candidate)
    (hS : HaveScans scans candidates) :
    ScoreCandidates o g scans candidates = some result ↔
      (∀ c ∈ candidates, 0 < claimedScore o g scans c) ∧
        result = candidates.map (fun c => { c with score := claimedScore o g scans c }) := by
  induction candidates generalizing result with
  | nil => simp [ScoreCandidates, eq_comm]
  | cons c rest ih =>
    obtain ⟨S, hSc, _⟩ := hS c (List.mem_cons_self _ _)
    have hrest : HaveScans scans rest := fun d hd => hS d (List.mem_cons_of_mem _ hd)
    have hclaim : claimedScore o g scans c = meanProbability g S c * penaltyFactor o c := by
      simp [claimedScore, scanOf, hSc]
    simp only [ScoreCandidates, hSc, scoreCandidate_eq, ← hclaim, gt_iff_lt, List.forall_mem_cons,
      List.map_cons]
    by_cases hpos : 0 < claimedScore o g scans c
    · rw [if_pos hpos]
      cases hr : ScoreCandidates o g scans rest with
      | none =>
        refine ⟨fun h => Option.noConfusion h, ?_⟩
        rintro ⟨h, -⟩
        have := (ih (rest.map fun c => { c with score := claimedScore o g scans c }) hrest).mpr
          ⟨h.2, rfl⟩
        rw [hr] at this
        exact Option.noConfusion this
      | some rs =>
        obtain ⟨h1, h2⟩ := (ih rs hrest).mp hr
        simp only [Option.some.injEq]
        constructor
        · rintro rfl
          exact ⟨⟨hpos, h1⟩, by rw [h2]⟩
        · rintro ⟨_, rfl⟩
          rw [h2]
    · rw [if_neg hpos]
      simp [hpos]

theorem meanProbability_bounds (g : ProbabilityGrid) (S : DiscreteScan) (c : Candidate)
    (lo hi : ℝ) (hS : S ≠ []) (hg : ∀ x y, lo ≤ g x y ∧ g x y ≤ hi) :
    lo ≤ meanProbability g S c ∧ meanProbability g S c ≤ hi := by
  have hlen : (0 : ℝ) < (S.length : ℝ) := by
    exact_mod_cast List.length_pos.mpr hS
  set l := S.map (fun p => g (p.1 + c.x_index_offset) (p.2 + c.y_index_offset)) with hl
  have hll : l.length = S.length := by simp [hl]
  have h1 : l.length • lo ≤ l.sum := List.card_nsmul_le_sum l lo (by
    intro x hx
    simp only [hl, List.mem_map] at hx
    obtain ⟨p, _, rfl⟩ := hx
    exact (hg _ _).1)
  have h2 : l.sum ≤ l.length • hi := List.sum_le_card_nsmul l hi (by
    intro x hx
    simp only [hl, List.mem_map] at hx
    obtain ⟨p, _, rfl⟩ := hx
    exact (hg _ _).2)
  rw [hll, nsmul_eq_mul] at h1 h2
  have hm : meanProbability g S c = l.sum / (S.length : ℝ) := by
    simp only [meanProbability, ← hl]
    ring
  rw [hm]
  constructor
  · rw [le_div_iff₀ hlen]
    linarith
  · rw [div_le_iff₀ hlen]
    linarith

theorem penaltyFactor_pos (o : RealTimeCorrelativeScanMatcherOptions) (c : Candidate) :
    0 < penaltyFactor o c := Real.exp_pos _

/-- The penalty does not grow with the translation weight, and shrinks when the
candidate is off the origin. -/
theorem penaltyFactor_antitone (o1 o2 : RealTimeCorrelativeScanMatcherOptions) (c : Candidate)
    (hr : o1.rotation_delta_cost_weight_ = o2.rotation_delta_cost_weight_)
    (hr0 : 0 ≤ o1.rotation_delta_cost_weight_)
    (h1 : 0 ≤ o1.translation_delta_cost_weight_)
    (h12 : o1.translation_delta_cost_weight_ < o2.translation_delta_cost_weight_) :
    penaltyFactor o2 c ≤ penaltyFactor o1 c ∧
      ((c.x, c.y) ≠ (0, 0) → penaltyFactor o2 c < penaltyFactor o1 c) := by
  unfold penaltyFactor
  rw [← hr]
  set h := Real.sqrt (c.x ^ 2 + c.y ^ 2) with hh
  set t := |c.orientation| * o1.rotation_delta_cost_weight_ with ht
  have hh0 : 0 ≤ h := Real.sqrt_nonneg _
  have ht0 : 0 ≤ t := mul_nonneg (abs_nonneg _) hr0
  have ha0 : 0 ≤ h * o1.translation_delta_cost_weight_ + t := by positivity
  constructor
  · rw [Real.exp_le_exp, neg_le_neg_iff]
    have : h * o1.translation_delta_cost_weight_ + t ≤
        h * o2.translation_delta_cost_weight_ + t := by nlinarith
    exact pow_le_pow_left₀ ha0 this 2
  · intro hne
    have hpos : 0 < h := by
      rw [hh, Real.sqrt_pos]
      have hxy : c.x ≠ 0 ∨ c.y ≠ 0 := by
        by_contra hcon
        push_neg at hcon
        exact hne (by rw [hcon.1, hcon.2])
      rcases hxy with hx | hy
      · have := pow_pos (abs_pos.mpr hx) 2
        rw [sq_abs] at this
        nlinarith [sq_nonneg c.y]
      · have := pow_pos (abs_pos.mpr hy) 2
        rw [sq_abs] at this
        nlinarith [sq_nonneg c.x]
    rw [Real.exp_lt_exp, neg_lt_neg_iff]
    have : h * o1.translation_delta_cost_weight_ + t <
        h * o2.translation_delta_cost_weight_ + t := by nlinarith
    exact pow_lt_pow_left₀ this ha0 (by norm_num)

theorem claimedScore_pos (o : RealTimeCorrelativeScanMatcherOptions) (g : ProbabilityGrid)
    (scans : List DiscreteScan) (candidates : List Candidate)
    (hg : ∀ x y, 0.1 ≤ g x y ∧ g x y ≤ 0.9) (hS : HaveScans scans candidates) :
    ∀ c ∈ candidates, 0 < claimedScore o g scans c := by
  intro c hc
  obtain ⟨S, hSc, hne⟩ := hS c hc
  have hb := meanProbability_bounds g S c 0.1 0.9 hne hg
  have : scanOf scans c = S := by simp [scanOf, hSc]
  rw [claimedScore, this]
  exact mul_pos (by linarith [hb.1]) (penaltyFactor_pos o c)

theorem scoreCandidates_of_grid (o : RealTimeCorrelativeScanMatcherOptions) (g : ProbabilityGrid)
    (scans : List DiscreteScan) (candidates : List Candidate)
    (hg : ∀ x y, 0.1 ≤ g x y ∧ g x y ≤ 0.9) (hS : HaveScans scans candidates) :
    ScoreCandidates o g scans candidates =
      some (candidates.map (fun c => { c with score := claimedScore o g scans c })) :=
  (scoreCandidates_eq_some_iff o g scans candidates _ hS).mpr
    ⟨claimedScore_pos o g scans candidates hg hS, rfl⟩

theorem haveScans_single : HaveScans singleCellScans [originCandidate] := by
  intro c hc
  rw [List.mem_singleton] at hc
  subst hc
  exact ⟨[(0, 0)], rfl, by simp⟩

theorem unknownGrid_range : ∀ x y : Int, (0.1 : ℝ) ≤ unknownGrid x y ∧ unknownGrid x y ≤ 0.9 := by
  intro x y
  constructor <;> norm_num [unknownGrid]

/-- C4. When every candidate has a non-empty discrete scan, `ScoreCandidates` returns
`result` exactly when `result` is the input with each score replaced by
`(1/|S|) · Σ GetProbability(c + offset) · exp(-(hypot(x, y)·λ_t + |θ|·λ_r)²)` and all
other fields kept, and every such score passes the `CHECK_GT`. -/
theorem score_candidates_sets_claimed_score (o : RealTimeCorrelativeScanMatcherOptions)
    (g : ProbabilityGrid) (scans : List DiscreteScan) (candidates : List Candidate)
    (hS : HaveScans scans candidates) :
    ∀ result, ScoreCandidates o g scans candidates = some result ↔
      (∀ c ∈ candidates, 0 < claimedScore o g scans c) ∧
        result = candidates.map (fun c =>
          { scan_index := c.scan_index, x_index_offset := c.x_index_offset,
            y_index_offset := c.y_index_offset, x := c.x, y := c.y,
            orientation := c.orientation, score := claimedScore o g scans c }) :=
  fun result => scoreCandidates_eq_some_iff o g scans candidates result hS

theorem score_candidates_sets_claimed_score_witness :
    HaveScans singleCellScans [originCandidate] ∧
    ∀ result, ScoreCandidates zeroWeightOptions unknownGrid singleCellScans [originCandidate] =
        some result ↔
      (∀ c ∈ [originCandidate],
        0 < claimedScore zeroWeightOptions unknownGrid singleCellScans c) ∧
        result = [originCandidate].map (fun c =>
          { scan_index := c.scan_index, x_index_offset := c.x_index_offset,
            y_index_offset := c.y_index_offset, x := c.x, y := c.y,
            orientation := c.orientation,
            score := claimedScore zeroWeightOptions unknownGrid singleCellScans c }) :=
  ⟨haveScans_single,
    score_candidates_sets_claimed_score zeroWeightOptions unknownGrid singleCellScans
      [originCandidate] haveScans_single⟩

theorem planarDistance_self (a : Candidate) : planarDistance a a = 0 := by
  simp [planarDistance]

theorem ambiguityLoop_eq_true_iff (front : Candidate) (l : List Candidate)
    (hl : l.Pairwise (fun a b => ¬ Candidate.gt b a)) :
    ambiguityLoop front l = true ↔
      ∃ c ∈ l, c.score ≥ 0.95 * front.score ∧ planarDistance c front ≥ 0.2 := by
  induction l with
  | nil => simp [ambiguityLoop]
  | cons ci rest ih =>
    rw [List.pairwise_cons] at hl
    have hdist : Real.sqrt ((ci.x - front.x) * (ci.x - front.x) +
        (ci.y - front.y) * (ci.y - front.y)) = planarDistance ci front := by
      simp only [planarDistance, sq]
    simp only [ambiguityLoop, hdist, List.exists_mem_cons_iff]
    by_cases hbreak : front.score * 0.95 > ci.score
    · rw [if_pos hbreak]
      simp only [Bool.false_eq_true, false_iff, not_or, not_and, not_exists]
      constructor
      · intro h
        linarith
      · intro c hc h
        have := hl.1 c hc
        simp only [Candidate.gt, gt_iff_lt, not_lt] at this
        linarith
    · rw [if_neg hbreak]
      have hge : ci.score ≥ 0.95 * front.score := by
        rw [gt_iff_lt, not_lt] at hbreak
        linarith
      by_cases hfar : planarDistance ci front ≥ 0.2
      · rw [if_pos hfar]
        simp only [true_iff]
        exact Or.inl ⟨hge, hfar⟩
      · rw [if_neg hfar, ih hl.2]
        constructor
        · intro h
          exact Or.inr h
        · rintro (h | h)
          · exact absurd h.2 hfar
          · exact h

theorem rejectsAsAmbiguous_iff (sorted : List Candidate)
    (hl : sorted.Pairwise (fun a b => ¬ Candidate.gt b a)) :
    rejectsAsAmbiguous sorted = true ↔
      ∃ best, sorted.head? = some best ∧
        ∃ c ∈ sorted, c.score ≥ 0.95 * best.score ∧ planarDistance c best ≥ 0.2 := by
  cases sorted with
  | nil => simp [rejectsAsAmbiguous]
  | cons front rest =>
    simp only [rejectsAsAmbiguous, List.head?_cons, Option.some.injEq, exists_eq_left']
    exact ambiguityLoop_eq_true_iff front (front :: rest) hl

theorem maxElementLoop_lt (largest : Nat) (v : Candidate) (i : Nat) (l : List Candidate)
    (h : largest < i) : maxElementLoop largest v i l < i + l.length := by
  induction l generalizing largest v i with
  | nil => simpa [maxElementLoop] using h
  | cons c rest ih =>
    simp only [maxElementLoop, List.length_cons]
    split
    · have := ih i c (i + 1) (Nat.lt_succ_self i)
      omega
    · have := ih largest v (i + 1) (Nat.lt_succ_of_lt h)
      omega

theorem max_element_lt (l : List Candidate) (k : Nat) (h : max_element l = some k) :
    k < l.length := by
  cases l with
  | nil => simp [max_element] at h
  | cons c rest =>
    simp only [max_element, Option.some.injEq] at h
    have := maxElementLoop_lt 0 c 1 rest Nat.zero_lt_one
    simp only [List.length_cons]
    omega

theorem max_element_isSome (l : List Candidate) (h : l ≠ []) : ∃ k, max_element l = some k := by
  cases l with
  | nil => exact absurd rfl h
  | cons c rest => exact ⟨_, rfl⟩

theorem scoreCandidates_pos (o : RealTimeCorrelativeScanMatcherOptions) (g : ProbabilityGrid)
    (scans : List DiscreteScan) (candidates scored : List Candidate)
    (h : ScoreCandidates o g scans candidates = some scored) :
    scored.length = candidates.length ∧ ∀ c ∈ scored, 0 < c.score := by
  induction candidates generalizing scored with
  | nil =>
    simp only [ScoreCandidates, Option.some.injEq] at h
    subst h
    simp
  | cons c rest ih =>
    simp only [ScoreCandidates] at h
    split at h
    · exact Option.noConfusion h
    · split at h
      · split at h
        · exact Option.noConfusion h
        · rename_i rs hrs
          simp only [Option.some.injEq] at h
          subst h
          obtain ⟨h1, h2⟩ := ih rs hrs
          refine ⟨by simp [h1], ?_⟩
          intro d hd
          rcases List.mem_cons.mp hd with rfl | hd
          · assumption
          · exact h2 d hd
      · exact Option.noConfusion h

/-- What `selectBest` returns, split by the outcome of the ambiguity loop. -/
theorem selectBest_eq (sort : List Candidate → List Candidate) (hsort : SortsDescending sort)
    (initial pose_estimate : Rigid2d) (candidates : List Candidate) (hne : candidates ≠ []) :
    ∃ k best, max_element candidates = some k ∧ (sort candidates)[k]? = some best ∧
      selectBest sort initial candidates pose_estimate =
        if rejectsAsAmbiguous (sort candidates) = true then some (0, pose_estimate)
        else some (best.score, refinedPose initial best) := by
  obtain ⟨k, hk⟩ := max_element_isSome candidates hne
  have hlt : k < (sort candidates).length := by
    rw [(hsort candidates).1.length_eq]
    exact max_element_lt candidates k hk
  refine ⟨k, (sort candidates)[k], hk, List.getElem?_eq_getElem hlt, ?_⟩
  simp only [selectBest, hk, List.getElem?_eq_getElem hlt, refinedPose]

theorem match_eq_selectBest (sort : List Candidate → List Candidate)
    (o : RealTimeCorrelativeScanMatcherOptions) (sp : SearchParameters)
    (scans : List DiscreteScan) (initial : Rigid2d) (g : ProbabilityGrid)
    (pose_estimate : Rigid2d) (generated scored : List Candidate)
    (hgen : GenerateExhaustiveSearchCandidates sp = some generated)
    (hscore : ScoreCandidates o g scans generated = some scored) :
    Match sort o sp scans initial g pose_estimate =
      selectBest sort initial scored pose_estimate := by
  simp only [Match, hgen, hscore]

/-- The outcome of `Match` once the candidates are generated and scored: the rejection
result when the ambiguity loop fires, else the score and pose of the candidate that the
sort left in the slot `max_element` pointed at. -/
theorem match_outcome (sort : List Candidate → List Candidate) (hsort : SortsDescending sort)
    (o : RealTimeCorrelativeScanMatcherOptions) (sp : SearchParameters)
    (scans : List DiscreteScan) (initial : Rigid2d) (g : ProbabilityGrid)
    (pose_estimate : Rigid2d) (generated scored : List Candidate)
    (hgen : GenerateExhaustiveSearchCandidates sp = some generated)
    (hscore : ScoreCandidates o g scans generated = some scored)
    (hne : generated ≠ []) :
    ∃ k best, max_element scored = some k ∧ (sort scored)[k]? = some best ∧
      best ∈ scored ∧ 0 < best.score ∧
      Match sort o sp scans initial g pose_estimate =
        if rejectsAsAmbiguous (sort scored) = true then some (0, pose_estimate)
        else some (best.score, refinedPose initial best) := by
  obtain ⟨hlen, hpos⟩ := scoreCandidates_pos o g scans generated scored hscore
  have hne' : scored ≠ [] := by
    intro h
    rw [h] at hlen
    exact hne (List.eq_nil_of_length_eq_zero hlen.symm)
  obtain ⟨k, best, hk, hbest, hsel⟩ := selectBest_eq sort hsort initial pose_estimate scored hne'
  have hmem : best ∈ scored :=
    (hsort scored).1.mem_iff.mp (List.getElem?_mem hbest)
  refine ⟨k, best, hk, hbest, hmem, hpos best hmem, ?_⟩
  rw [match_eq_selectBest sort o sp scans initial g pose_estimate generated scored hgen hscore]
  exact hsel

theorem stableSort_sortsDescending : SortsDescending stableSort := by
  intro l
  haveI : IsTotal Candidate (fun a b => a.score ≥ b.score) := ⟨fun a b => le_total b.score a.score⟩
  haveI : IsTrans Candidate (fun a b => a.score ≥ b.score) :=
    ⟨fun a b c hab hbc => ge_trans hab hbc⟩
  refine ⟨List.perm_insertionSort _ l, ?_⟩
  have := List.sorted_insertionSort (fun a b : Candidate => a.score ≥ b.score) l
  exact List.Pairwise.imp (fun {a b} h => by simpa [Candidate.gt] using h) this

theorem peak_wellFormed : peakSearchParameters.WellFormed := by
  refine ⟨rfl, ?_⟩
  intro b hb
  simp only [peakSearchParameters, List.mem_singleton] at hb
  subst hb
  constructor <;> decide

theorem intRange_neg_one_one : intRange (-1) 1 = [-1, 0, 1] := by
  rw [intRange_of_le (by decide), intRange_of_le (by decide), intRange_of_le (by decide),
    intRange_of_gt (by decide)]
  rfl

theorem peak_generated :
    GenerateExhaustiveSearchCandidates peakSearchParameters =
      some (allCandidates peakSearchParameters) := generate_eq _ peak_wellFormed

theorem peak_allCandidates :
    allCandidates peakSearchParameters =
      [Candidate.make 0 (-1) (-1) peakSearchParameters,
       Candidate.make 0 (-1) 0 peakSearchParameters,
       Candidate.make 0 (-1) 1 peakSearchParameters,
       Candidate.make 0 0 (-1) peakSearchParameters,
       Candidate.make 0 0 0 peakSearchParameters,
       Candidate.make 0 0 1 peakSearchParameters,
       Candidate.make 0 1 (-1) peakSearchParameters,
       Candidate.make 0 1 0 peakSearchParameters,
       Candidate.make 0 1 1 peakSearchParameters] := by
  have hb : peakSearchParameters.linear_bounds[0]? = some ⟨-1, 1, -1, 1⟩ := rfl
  have hn : peakSearchParameters.num_scans = 1 := rfl
  have h0 : candidatesOfScan peakSearchParameters 0 =
      scanCandidates peakSearchParameters 0 ⟨-1, 1, -1, 1⟩ := by
    simp only [candidatesOfScan, hb]
  rw [allCandidates, hn]
  simp [List.range_succ, h0, scanCandidates, intRange_neg_one_one]

theorem claimedScore_single_cell (g : ProbabilityGrid) (c : Candidate) (h : c.scan_index = 0) :
    claimedScore zeroWeightOptions g singleCellScans c =
      g c.x_index_offset c.y_index_offset := by
  have hs : scanOf singleCellScans c = [(0, 0)] := by
    simp [scanOf, singleCellScans, h]
  simp [claimedScore, hs, meanProbability, penaltyFactor, zeroWeightOptions]

theorem haveScans_single_of_scan_zero (l : List Candidate) (h : ∀ c ∈ l, c.scan_index = 0) :
    HaveScans singleCellScans l := by
  intro c hc
  refine ⟨[(0, 0)], ?_, by simp⟩
  rw [h c hc]
  rfl

theorem peak_scan_zero : ∀ c ∈ allCandidates peakSearchParameters, c.scan_index = 0 := by
  intro c hc
  rw [peak_allCandidates] at hc
  simp only [List.mem_cons, List.mem_singleton, List.not_mem_nil, or_false] at hc
  rcases hc with h | h | h | h | h | h | h | h | h <;> (subst h; rfl)

theorem peakGrid_range : ∀ x y : Int, (0.1 : ℝ) ≤ peakGrid x y ∧ peakGrid x y ≤ 0.9 := by
  intro x y
  unfold peakGrid
  split <;> constructor <;> norm_num

theorem peak_scored :
    ScoreCandidates zeroWeightOptions peakGrid singleCellScans
      (allCandidates peakSearchParameters) = some peakScored := by
  rw [scoreCandidates_of_grid zeroWeightOptions peakGrid singleCellScans _ peakGrid_range
    (haveScans_single_of_scan_zero _ peak_scan_zero)]
  congr 1
  rw [peak_allCandidates]
  simp only [List.map_cons, List.map_nil, peakScored, scoredAt]
  simp only [claimedScore_single_cell peakGrid _ (rfl : (Candidate.make 0 _ _ _).scan_index = 0)]
  simp [Candidate.make, peakGrid]

theorem peak_max_element : max_element peakScored = some 4 := by
  simp only [max_element, peakScored, maxElementLoop, scoredAt]
  norm_num

theorem peak_sorted_scores (sort : List Candidate → List Candidate)
    (hsort : SortsDescending sort) :
    (sort peakScored).map Candidate.score = [0.9, 0.5, 0.5, 0.5, 0.5, 0.5, 0.5, 0.5, 0.5] := by
  have hperm : ((sort peakScored).map Candidate.score).Perm (peakScored.map Candidate.score) :=
    (hsort peakScored).1.map _
  have hmap : peakScored.map Candidate.score =
      [0.5, 0.5, 0.5, 0.5] ++ 0.9 :: [0.5, 0.5, 0.5, 0.5] := by
    simp [peakScored, scoredAt]
  have hs1 : List.Sorted (· ≥ ·) ((sort peakScored).map Candidate.score) := by
    rw [List.Sorted, List.pairwise_map]
    exact (hsort peakScored).2.imp (fun {a b} h => by simpa [Candidate.gt] using h)
  have hs2 : List.Sorted (· ≥ ·)
      ([0.9, 0.5, 0.5, 0.5, 0.5, 0.5, 0.5, 0.5, 0.5] : List ℝ) := by
    simp only [List.Sorted, List.pairwise_cons, List.mem_cons, List.mem_singleton,
      List.not_mem_nil]
    norm_num
  rw [hmap] at hperm
  exact List.eq_of_perm_of_sorted (hperm.trans List.perm_middle) hs1 hs2

theorem peak_mem_scores (c : Candidate) (hc : c ∈ peakScored) :
    c.score = 0.5 ∨ c = scoredAt peakSearchParameters 0 0 0.9 := by
  simp only [peakScored, List.mem_cons, List.mem_singleton, List.not_mem_nil, or_false] at hc
  rcases hc with h | h | h | h | h | h | h | h | h
  all_goals first
    | exact Or.inr h
    | (left; rw [h]; rfl)

theorem peak_not_rejected (sort : List Candidate → List Candidate)
    (hsort : SortsDescending sort) : rejectsAsAmbiguous (sort peakScored) = false := by
  rw [← Bool.not_eq_true, rejectsAsAmbiguous_iff _ (hsort peakScored).2]
  rintro ⟨best, hhead, c, hc, hscore, hfar⟩
  have hscores := peak_sorted_scores sort hsort
  have hbest : best.score = 0.9 := by
    cases hs : sort peakScored with
    | nil => rw [hs] at hhead; exact Option.noConfusion hhead
    | cons front rest =>
      rw [hs] at hhead hscores
      simp only [List.head?_cons, Option.some.injEq] at hhead
      subst hhead
      simp only [List.map_cons, List.cons.injEq] at hscores
      exact hscores.1
  have hbestmem : best ∈ peakScored :=
    (hsort peakScored).1.mem_iff.mp (List.mem_of_mem_head? hhead)
  have hcmem : c ∈ peakScored := (hsort peakScored).1.mem_iff.mp hc
  have hbest_eq : best = scoredAt peakSearchParameters 0 0 0.9 := by
    rcases peak_mem_scores best hbestmem with h | h
    · rw [h] at hbest; norm_num at hbest
    · exact h
  have hc_eq : c = scoredAt peakSearchParameters 0 0 0.9 := by
    rcases peak_mem_scores c hcmem with h | h
    · rw [h, hbest] at hscore; norm_num at hscore
    · exact h
  rw [hbest_eq, hc_eq, planarDistance_self] at hfar
  norm_num at hfar

/-- The code at a failing input for C1: one scan, a window of one cell around the
origin, a grid whose only occupied cell is the one the scan hits at offset `(0, 0)`,
zero cost weights.  The scored candidates have the scores 0.5 (eight times) and 0.9
(offset `(0, 0)`), the match is not rejected, and whatever the sorting routine does
with equal scores, `Match` returns 0.5 and the pose of a candidate of score 0.5. -/
theorem match_returns_non_best :
    GenerateExhaustiveSearchCandidates peakSearchParameters =
      some (allCandidates peakSearchParameters) ∧
    ScoreCandidates zeroWeightOptions peakGrid singleCellScans
      (allCandidates peakSearchParameters) = some peakScored ∧
    (∃ c ∈ peakScored, c.score = 0.9) ∧
    ∀ sort, SortsDescending sort →
      rejectsAsAmbiguous (sort peakScored) = false ∧
      ∃ c ∈ peakScored, c.score = 0.5 ∧
        Match sort zeroWeightOptions peakSearchParameters singleCellScans originPose peakGrid
          originPose = some (0.5, refinedPose originPose c) := by
  refine ⟨peak_generated, peak_scored, ⟨scoredAt peakSearchParameters 0 0 0.9, ?_, rfl⟩, ?_⟩
  · simp [peakScored]
  · intro sort hsort
    have hrej := peak_not_rejected sort hsort
    refine ⟨hrej, ?_⟩
    have hne : allCandidates peakSearchParameters ≠ [] := by
      rw [peak_allCandidates]
      exact List.cons_ne_nil _ _
    obtain ⟨k, best, hk, hbest, hmem, _, hmatch⟩ :=
      match_outcome sort hsort zeroWeightOptions peakSearchParameters singleCellScans originPose
        peakGrid originPose _ _ peak_generated peak_scored hne
    rw [peak_max_element, Option.some.injEq] at hk
    subst hk
    have hscores := peak_sorted_scores sort hsort
    have h4 : ((sort peakScored).map Candidate.score)[4]? = some (0.5 : ℝ) := by
      rw [hscores]
      rfl
    rw [List.getElem?_map, hbest, Option.map_some', Option.some.injEq] at h4
    refine ⟨best, hmem, h4, ?_⟩
    rw [hmatch, hrej, ← h4]
    simp

theorem intRange_zero_one : intRange 0 1 = [0, 1] := by
  rw [intRange_of_le (by decide), intRange_of_le (by decide), intRange_of_gt (by decide)]
  rfl

theorem intRange_zero_zero : intRange 0 0 = [0] := by
  rw [intRange_of_le (by decide), intRange_of_gt (by decide)]

theorem twin_wellFormed : twinSearchParameters.WellFormed := by
  refine ⟨rfl, ?_⟩
  intro b hb
  simp only [twinSearchParameters, List.mem_singleton] at hb
  subst hb
  constructor <;> decide

theorem twin_generated :
    GenerateExhaustiveSearchCandidates twinSearchParameters =
      some (allCandidates twinSearchParameters) := generate_eq _ twin_wellFormed

theorem twin_allCandidates :
    allCandidates twinSearchParameters =
      [Candidate.make 0 0 0 twinSearchParameters, Candidate.make 0 1 0 twinSearchParameters] := by
  have hb : twinSearchParameters.linear_bounds[0]? = some ⟨0, 1, 0, 0⟩ := rfl
  have hn : twinSearchParameters.num_scans = 1 := rfl
  have h0 : candidatesOfScan twinSearchParameters 0 =
      scanCandidates twinSearchParameters 0 ⟨0, 1, 0, 0⟩ := by
    simp only [candidatesOfScan, hb]
  rw [allCandidates, hn]
  simp [List.range_succ, h0, scanCandidates, intRange_zero_one, intRange_zero_zero]

theorem twin_scan_zero : ∀ c ∈ allCandidates twinSearchParameters, c.scan_index = 0 := by
  intro c hc
  rw [twin_allCandidates] at hc
  simp only [List.mem_cons, List.mem_singleton, List.not_mem_nil, or_false] at hc
  rcases hc with h | h <;> (subst h; rfl)

theorem twin_scored :
    ScoreCandidates zeroWeightOptions unknownGrid singleCellScans
      (allCandidates twinSearchParameters) = some twinScored := by
  rw [scoreCandidates_of_grid zeroWeightOptions unknownGrid singleCellScans _ unknownGrid_range
    (haveScans_single_of_scan_zero _ twin_scan_zero)]
  congr 1
  rw [twin_allCandidates]
  simp only [List.map_cons, List.map_nil, twinScored, scoredAt]
  simp only [claimedScore_single_cell unknownGrid _
    (rfl : (Candidate.make 0 _ _ _).scan_index = 0)]
  simp [Candidate.make, unknownGrid]

theorem generate_exhaustive_spec_witness :
    peakSearchParameters.WellFormed ∧
    ∃ candidates, GenerateExhaustiveSearchCandidates peakSearchParameters = some candidates ∧
      (∀ s x y, (s, x, y) ∈ candidates.map Candidate.key ↔
        s < peakSearchParameters.num_scans ∧
          ∃ b, peakSearchParameters.linear_bounds[s]? = some b ∧
            (b.min_x ≤ x ∧ x ≤ b.max_x) ∧ (b.min_y ≤ y ∧ y ≤ b.max_y)) ∧
      (candidates.map Candidate.key).Nodup ∧
      (∀ c ∈ candidates,
        c = Candidate.make c.scan_index c.x_index_offset c.y_index_offset
          peakSearchParameters) ∧
      (candidates.map Candidate.key).Pairwise keyLt :=
  ⟨peak_wellFormed, generate_exhaustive_spec peakSearchParameters peak_wellFormed⟩

/-! ## ProbabilityToLogOddsInteger -/

theorem kMinLogOdds_eq : kMinLogOdds = -Real.log 9 := by
  unfold kMinLogOdds Logit kMinProbability
  rw [← Real.log_inv]
  congr 1
  norm_num

theorem kMaxLogOdds_eq : kMaxLogOdds = Real.log 9 := by
  unfold kMaxLogOdds Logit kMaxProbability
  congr 1
  norm_num

theorem log_nine_pos : 0 < Real.log 9 := Real.log_pos (by norm_num)

theorem logOdds_span_pos : 0 < kMaxLogOdds - kMinLogOdds := by
  rw [kMaxLogOdds_eq, kMinLogOdds_eq]
  linarith [log_nine_pos]

theorem logit_bounds (p : ℝ) (hlo : 0.1 ≤ p) (hhi : p ≤ 0.9) :
    kMinLogOdds ≤ Logit p ∧ Logit p ≤ kMaxLogOdds := by
  have h1p : 0 < 1 - p := by linarith
  have hq : 0 < p / (1 - p) := div_pos (by linarith) h1p
  constructor
  · rw [kMinLogOdds_eq, ← Real.log_inv]
    unfold Logit
    apply Real.log_le_log (by norm_num)
    rw [le_div_iff₀ h1p]
    linarith
  · rw [kMaxLogOdds_eq]
    unfold Logit
    apply Real.log_le_log hq
    rw [div_le_iff₀ h1p]
    linarith

theorem scaledLogOdds_bounds (p : ℝ) (hlo : 0.1 ≤ p) (hhi : p ≤ 0.9) :
    0 ≤ scaledLogOdds p ∧ scaledLogOdds p ≤ 254 := by
  obtain ⟨h1, h2⟩ := logit_bounds p hlo hhi
  have hs := logOdds_span_pos
  unfold scaledLogOdds
  constructor
  · apply div_nonneg _ hs.le
    nlinarith
  · rw [div_le_iff₀ hs]
    nlinarith

theorem roundToInt_bounds (x : ℝ) (h0 : 0 ≤ x) (h1 : x ≤ 254) :
    RoundToInt x = ⌊x + 1 / 2⌋ ∧ 0 ≤ RoundToInt x ∧ RoundToInt x ≤ 254 := by
  have hr : RoundToInt x = ⌊x + 1 / 2⌋ := by simp [RoundToInt, h0]
  refine ⟨hr, ?_, ?_⟩
  · rw [hr]
    exact Int.floor_nonneg.mpr (by linarith)
  · rw [hr]
    have : ⌊x + 1 / 2⌋ < 255 := by
      rw [Int.floor_lt]
      push_cast
      linarith
    omega

theorem probabilityToLogOddsInteger_of_round (p : ℝ) (n : Int)
    (hn : RoundToInt (scaledLogOdds p) = n) (h0 : 0 ≤ n) (h1 : n ≤ 254) :
    ProbabilityToLogOddsInteger p = some (n + 1).toNat := by
  unfold ProbabilityToLogOddsInteger
  simp only []
  rw [show (Logit p - kMinLogOdds) * 254 / (kMaxLogOdds - kMinLogOdds) = scaledLogOdds p from rfl,
    hn, if_pos (by omega), if_pos (by omega)]
  congr 1
  omega

/-! ## Candidate count and the pose on rejection -/

theorem map_countOfScan_range (sp : SearchParameters) (n : Nat)
    (hn : n ≤ sp.linear_bounds.length) :
    (List.range n).map (countOfScan sp) =
      (sp.linear_bounds.take n).map
        (fun b => (b.max_x - b.min_x + 1) * (b.max_y - b.min_y + 1)) := by
  induction n with
  | zero => simp
  | succ n ih =>
    have hlt : n < sp.linear_bounds.length := hn
    rw [List.range_succ, List.map_append, ih (Nat.le_of_lt hlt), List.take_succ,
      List.map_append]
    congr 1
    simp [countOfScan, List.getElem?_eq_getElem hlt]

theorem sum_countOfScan (sp : SearchParameters) (hwf : sp.WellFormed) :
    ((List.range sp.num_scans).map (countOfScan sp)).sum = expectedNumCandidates sp := by
  rw [map_countOfScan_range sp sp.num_scans (le_of_eq hwf.1.symm), ← hwf.1, List.take_length]
  rfl

theorem allCandidates_ne_nil (sp : SearchParameters) (hwf : sp.WellFormed)
    (hn : 1 ≤ sp.num_scans) : allCandidates sp ≠ [] := by
  have h0 : 0 < sp.linear_bounds.length := by rw [hwf.1]; exact hn
  have hb : sp.linear_bounds[0]? = some sp.linear_bounds[0] := List.getElem?_eq_getElem h0
  obtain ⟨hx, hy⟩ := hwf.2 _ (List.getElem?_mem hb)
  have hmem : Candidate.make 0 sp.linear_bounds[0].min_x sp.linear_bounds[0].min_y sp ∈
      allCandidates sp :=
    mem_allCandidates.mpr ⟨0, hn, _, hb, _, _, ⟨le_refl _, hx⟩, ⟨le_refl _, hy⟩, rfl⟩
  exact List.ne_nil_of_mem hmem

/-- C15. For search parameters with at least one scan, one bounds entry per scan and
`min ≤ max` in every entry, the first loop of `GenerateExhaustiveSearchCandidates` counts
the sum over the scans of `(max_x - min_x + 1) * (max_y - min_y + 1)`, the second loop
generates that many candidates, so `CHECK_EQ` passes, and the returned list is not
empty, so `std::max_element` of `Match` returns an element. -/
theorem generate_count_matches (sp : SearchParameters) (hwf : sp.WellFormed)
    (hn : 1 ≤ sp.num_scans) :
    countLoop sp 0 0 = some (expectedNumCandidates sp) ∧
    ∃ candidates, scanLoop sp 0 [] = some candidates ∧
      (candidates.length : Int) = expectedNumCandidates sp ∧
      GenerateExhaustiveSearchCandidates sp = some candidates ∧
      candidates ≠ [] ∧
      ∃ largest, max_element candidates = some largest ∧ largest < candidates.length := by
  have hlen : sp.num_scans ≤ sp.linear_bounds.length := le_of_eq hwf.1.symm
  have hne := allCandidates_ne_nil sp hwf hn
  obtain ⟨k, hk⟩ := max_element_isSome _ hne
  refine ⟨?_, allCandidates sp, ?_, ?_, generate_eq sp hwf, hne, k, hk,
    max_element_lt _ k hk⟩
  · rw [countLoop_eq sp hlen, Nat.sub_zero, zero_add, ← List.range_eq_range',
      sum_countOfScan sp hwf]
  · rw [scanLoop_eq sp hlen, Nat.sub_zero, List.nil_append, ← List.range_eq_range']
    rfl
  · rw [length_allCandidates sp hwf, sum_countOfScan sp hwf]

theorem generate_count_matches_witness :
    peakSearchParameters.WellFormed ∧ 1 ≤ peakSearchParameters.num_scans ∧
    (countLoop peakSearchParameters 0 0 = some (expectedNumCandidates peakSearchParameters) ∧
    ∃ candidates, scanLoop peakSearchParameters 0 [] = some candidates ∧
      (candidates.length : Int) = expectedNumCandidates peakSearchParameters ∧
      GenerateExhaustiveSearchCandidates peakSearchParameters = some candidates ∧
      candidates ≠ [] ∧
      ∃ largest, max_element candidates = some largest ∧ largest < candidates.length) :=
  ⟨peak_wellFormed, le_refl 1,
    generate_count_matches peakSearchParameters peak_wellFormed (le_refl 1)⟩

/-- C14. Once the candidates are generated and scored: when the ambiguity loop rejects,
`Match` returns `0` and `*pose_estimate` holds the value it held on entry; when it does
not reject, `Match` returns a non-zero score with the pose built from a candidate; so
whenever `Match` returns `0` the pose is the one the caller passed in. -/
theorem match_reject_keeps_pose (sort : List Candidate → List Candidate)
    (hsort : SortsDescending sort)
    (o : RealTimeCorrelativeScanMatcherOptions) (sp : SearchParameters)
    (scans : List DiscreteScan) (initial : Rigid2d) (g : ProbabilityGrid)
    (pose_estimate : Rigid2d) (generated scored : List Candidate)
    (hgen : GenerateExhaustiveSearchCandidates sp = some generated)
    (hscore : ScoreCandidates o g scans generated = some scored)
    (hne : generated ≠ []) :
    (rejectsAsAmbiguous (sort scored) = true →
      Match sort o sp scans initial g pose_estimate = some (0, pose_estimate)) ∧
    (rejectsAsAmbiguous (sort scored) = false →
      ∃ best ∈ scored, best.score ≠ 0 ∧
        Match sort o sp scans initial g pose_estimate =
          some (best.score, refinedPose initial best)) ∧
    (∀ ret pose, Match sort o sp scans initial g pose_estimate = some (ret, pose) →
      ret = 0 → pose = pose_estimate) := by
  obtain ⟨k, best, _, _, hmem, hpos, hmatch⟩ :=
    match_outcome sort hsort o sp scans initial g pose_estimate generated scored hgen hscore hne
  refine ⟨?_, ?_, ?_⟩
  · intro hrej
    rw [hmatch, if_pos hrej]
  · intro hrej
    refine ⟨best, hmem, ne_of_gt hpos, ?_⟩
    rw [hmatch, hrej]
    simp
  · intro ret pose hres hzero
    rw [hmatch] at hres
    by_cases hrej : rejectsAsAmbiguous (sort scored) = true
    · rw [if_pos hrej] at hres
      simp only [Option.some.injEq, Prod.mk.injEq] at hres
      exact hres.2.symm
    · rw [if_neg hrej] at hres
      simp only [Option.some.injEq, Prod.mk.injEq] at hres
      rw [← hres.1] at hzero
      exact absurd hzero (ne_of_gt hpos)

theorem match_reject_keeps_pose_witness :
    SortsDescending stableSort ∧
    GenerateExhaustiveSearchCandidates twinSearchParameters =
      some (allCandidates twinSearchParameters) ∧
    ScoreCandidates zeroWeightOptions unknownGrid singleCellScans
      (allCandidates twinSearchParameters) = some twinScored ∧
    allCandidates twinSearchParameters ≠ [] ∧
    ((rejectsAsAmbiguous (stableSort twinScored) = true →
      Match stableSort zeroWeightOptions twinSearchParameters singleCellScans originPose
        unknownGrid poseOneTwoThree = some (0, poseOneTwoThree)) ∧
    (rejectsAsAmbiguous (stableSort twinScored) = false →
      ∃ best ∈ twinScored, best.score ≠ 0 ∧
        Match stableSort zeroWeightOptions twinSearchParameters singleCellScans originPose
          unknownGrid poseOneTwoThree = some (best.score, refinedPose originPose best)) ∧
    (∀ ret pose, Match stableSort zeroWeightOptions twinSearchParameters singleCellScans
        originPose unknownGrid poseOneTwoThree = some (ret, pose) →
      ret = 0 → pose = poseOneTwoThree)) :=
  ⟨stableSort_sortsDescending, twin_generated, twin_scored,
    by rw [twin_allCandidates]; exact List.cons_ne_nil _ _,
    match_reject_keeps_pose stableSort stableSort_sortsDescending zeroWeightOptions
      twinSearchParameters singleCellScans originPose unknownGrid poseOneTwoThree _ _
      twin_generated twin_scored (by rw [twin_allCandidates]; exact List.cons_ne_nil _ _)⟩

/-! ## Monotonicity of ProbabilityToLogOddsInteger -/

theorem logit_mono (p q : ℝ) (hp : 0.1 ≤ p) (hpq : p ≤ q) (hq : q ≤ 0.9) :
    Logit p ≤ Logit q := by
  have h1p : 0 < 1 - p := by linarith
  have h1q : 0 < 1 - q := by linarith
  unfold Logit
  apply Real.log_le_log (div_pos (by linarith) h1p)
  rw [div_le_iff₀ h1p, div_mul_eq_mul_div, le_div_iff₀ h1q]
  nlinarith

theorem scaledLogOdds_mono (p q : ℝ) (hp : 0.1 ≤ p) (hpq : p ≤ q) (hq : q ≤ 0.9) :
    scaledLogOdds p ≤ scaledLogOdds q := by
  have hl := logit_mono p q hp hpq hq
  have hs := logOdds_span_pos
  unfold scaledLogOdds
  apply div_le_div_of_nonneg_right _ hs.le
  linarith

theorem kMinLogOdds_eq_neg : kMinLogOdds = -kMaxLogOdds := by
  rw [kMinLogOdds_eq, kMaxLogOdds_eq]

theorem scaledLogOdds_half : scaledLogOdds 0.5 = 127 := by
  have hl : Logit 0.5 = 0 := by
    unfold Logit
    norm_num
  have h9 := log_nine_pos
  unfold scaledLogOdds
  rw [hl, kMinLogOdds_eq, kMaxLogOdds_eq]
  field_simp
  ring

/-- C16. `ProbabilityToLogOddsInteger` does not decrease on `[0.1, 0.9]`: for
`0.1 ≤ p ≤ q ≤ 0.9` both calls return and the value at `p` is at most the value at `q`;
`kMinLogOdds = -kMaxLogOdds`, and the midpoint 0.5 maps to 128. -/
theorem probability_to_log_odds_integer_mono (p q : ℝ) (hp : 0.1 ≤ p) (hpq : p ≤ q)
    (hq : q ≤ 0.9) :
    (∃ a b : Nat, ProbabilityToLogOddsInteger p = some a ∧
      ProbabilityToLogOddsInteger q = some b ∧ a ≤ b) ∧
    kMinLogOdds = -kMaxLogOdds ∧
    ProbabilityToLogOddsInteger 0.5 = some 128 := by
  refine ⟨?_, kMinLogOdds_eq_neg, ?_⟩
  · obtain ⟨hp0, hp1⟩ := scaledLogOdds_bounds p hp (le_trans hpq hq)
    obtain ⟨hq0, hq1⟩ := scaledLogOdds_bounds q (le_trans hp hpq) hq
    obtain ⟨hrp, hrp0, hrp1⟩ := roundToInt_bounds _ hp0 hp1
    obtain ⟨hrq, hrq0, hrq1⟩ := roundToInt_bounds _ hq0 hq1
    refine ⟨_, _, probabilityToLogOddsInteger_of_round p _ rfl hrp0 hrp1,
      probabilityToLogOddsInteger_of_round q _ rfl hrq0 hrq1, ?_⟩
    have hmono : RoundToInt (scaledLogOdds p) ≤ RoundToInt (scaledLogOdds q) := by
      rw [hrp, hrq]
      exact Int.floor_mono (by linarith [scaledLogOdds_mono p q hp hpq hq])
    omega
  · have hr : RoundToInt (scaledLogOdds 0.5) = 127 := by
      rw [scaledLogOdds_half]
      simp only [RoundToInt]
      rw [if_pos (by norm_num), Int.floor_eq_iff]
      norm_num
    exact probabilityToLogOddsInteger_of_round 0.5 127 hr (by decide) (by decide)

theorem probability_to_log_odds_integer_mono_witness :
    (0.1 : ℝ) ≤ 0.2 ∧ (0.2 : ℝ) ≤ 0.7 ∧ (0.7 : ℝ) ≤ 0.9 ∧
    ((∃ a b : Nat, ProbabilityToLogOddsInteger 0.2 = some a ∧
      ProbabilityToLogOddsInteger 0.7 = some b ∧ a ≤ b) ∧
    kMinLogOdds = -kMaxLogOdds ∧
    ProbabilityToLogOddsInteger 0.5 = some 128) :=
  ⟨by norm_num, by norm_num, by norm_num,
    probability_to_log_odds_integer_mono 0.2 0.7 (by norm_num) (by norm_num) (by norm_num)⟩

/-! ## ActiveSubmaps -/

theorem headD_append_singleton (fed : List RangeData) (r : RangeData) (h : fed ≠ []) :
    (fed ++ [r]).headD 0 = fed.headD 0 := by
  cases fed with
  | nil => exact absurd rfl h
  | cons a l => rfl

theorem getD_append_singleton_lt (fed : List RangeData) (r : RangeData) (i : Nat)
    (h : i < fed.length) : (fed ++ [r]).getD i 0 = fed.getD i 0 := by
  simp [List.getD_eq_getElem?_getD, List.getElem?_append_left h]

theorem getD_append_singleton_eq (fed : List RangeData) (r : RangeData) (i : Nat)
    (h : i = fed.length) : (fed ++ [r]).getD i 0 = r := by
  subst h
  simp [List.getD_eq_getElem?_getD]

theorem insert_stateAfter (N : Nat) (hN : 1 ≤ N) (fed : List RangeData) (r : RangeData)
    (h : fed.length < 2 * N) :
    (stateAfter N fed).InsertRangeData r = some (stateAfter N (fed ++ [r])) := by
  have hlen : (fed ++ [r]).length = fed.length + 1 := by simp
  have hN0 : ¬ (N = 0) := by omega
  have hN2 : N < 2 * N := by omega
  by_cases h0 : fed.length = 0
  · have hnil : fed = [] := List.eq_nil_of_length_eq_zero h0
    subst hnil
    by_cases h1 : N = 1
    · subst h1
      simp [stateAfter, ActiveSubmaps.InsertRangeData, ActiveSubmaps.fresh, Submap.create,
        Submap.InsertRangeData]
    · have h2 : 1 < N := by omega
      have h3 : ¬ (1 = N) := by omega
      simp [stateAfter, ActiveSubmaps.InsertRangeData, ActiveSubmaps.fresh, Submap.create,
        Submap.InsertRangeData, h2, h3]
  · have hne : fed ≠ [] := fun hnil => h0 (by rw [hnil]; rfl)
    have hhead : (fed.head?.or (some r)).getD 0 = fed.head?.getD 0 := by
      simpa using headD_append_singleton fed r hne
    by_cases h1 : fed.length < N
    · by_cases h2 : fed.length + 1 = N
      · have h6 : (fed ++ [r]).drop N = [] := by
          apply List.drop_of_length_le
          rw [hlen]
          omega
        have h7 : (fed ++ [r])[N - 1]?.getD 0 = r := by
          simpa [List.getD_eq_getElem?_getD] using
            getD_append_singleton_eq fed r (N - 1) (by omega)
        have hR : stateAfter N (fed ++ [r]) =
            { num_range_data_ := N, matching_submap_index_ := 0,
              submaps_ := [⟨fed.head?.getD 0, N, false, fed ++ [r]⟩, ⟨r, 0, false, []⟩],
              retired_ := [] } := by
          simp [stateAfter, h2, hN0, hN2, h6, h7, hhead]
        rw [hR]
        simp [stateAfter, ActiveSubmaps.InsertRangeData, Submap.create,
          Submap.InsertRangeData, h0, h1, h2]
      · have h3 : fed.length + 1 < N := by omega
        simp [stateAfter, ActiveSubmaps.InsertRangeData, Submap.create,
          Submap.InsertRangeData, h0, h1, h2, h3, hhead]
    · have hge : N ≤ fed.length := by omega
      have hdrop : (fed ++ [r]).drop N = fed.drop N ++ [r] :=
        List.drop_append_of_le_length hge
      have h7 : (fed ++ [r])[N - 1]?.getD 0 = fed[N - 1]?.getD 0 := by
        simpa [List.getD_eq_getElem?_getD] using
          getD_append_singleton_lt fed r (N - 1) (by omega)
      by_cases h2 : fed.length + 1 = 2 * N
      · have h5 : fed.length - N + 1 = N := by omega
        have h8 : (fed ++ [r])[2 * N - 1]?.getD 0 = r := by
          simpa [List.getD_eq_getElem?_getD] using
            getD_append_singleton_eq fed r (2 * N - 1) (by omega)
        have hR : stateAfter N (fed ++ [r]) =
            { num_range_data_ := N, matching_submap_index_ := 1,
              submaps_ := [⟨fed[N - 1]?.getD 0, N, false, fed.drop N ++ [r]⟩,
                ⟨r, 0, false, []⟩],
              retired_ := [⟨fed.head?.getD 0, fed.length + 1, true, fed ++ [r]⟩] } := by
          have h3 : ¬ (fed.length + 1 < N) := by omega
          have h4 : ¬ (fed.length + 1 < 2 * N) := by omega
          simp only [stateAfter, hlen, h3, h4, if_false, hdrop, List.getD_eq_getElem?_getD,
            h7, h8, List.headD_eq_head?_getD, List.head?_append, hhead, Submap.create]
          simp [hhead]
        rw [hR]
        simp [stateAfter, ActiveSubmaps.InsertRangeData, Submap.create,
          Submap.InsertRangeData, Submap.Finish, h0, h1, h, h5]
      · have h3 : ¬ (fed.length + 1 < N) := by omega
        have h4 : fed.length + 1 < 2 * N := by omega
        have h5 : ¬ (fed.length - N + 1 = N) := by omega
        have h6 : fed.length + 1 - N = fed.length - N + 1 := by omega
        simp [stateAfter, ActiveSubmaps.InsertRangeData, Submap.create,
          Submap.InsertRangeData, h0, h1, h, h3, h4, h5, h6, h7, hdrop, hhead]

theorem feed_stateAfter (N : Nat) (hN : 1 ≤ N) (fed scans : List RangeData)
    (h : fed.length + scans.length ≤ 2 * N) :
    (stateAfter N fed).feed scans = some (stateAfter N (fed ++ scans)) := by
  induction scans generalizing fed with
  | nil => simp [ActiveSubmaps.feed]
  | cons r rest ih =>
    simp only [List.length_cons] at h
    rw [ActiveSubmaps.feed, insert_stateAfter N hN fed r (by omega)]
    simp only []
    rw [ih (fed ++ [r]) (by simp; omega)]
    simp

theorem insert_two_active (s : ActiveSubmaps) (front back : Submap) (r : RangeData)
    (hs : s.submaps_ = [front, back]) (hf : front.finished = false)
    (hb : back.finished = false) :
    ∃ s1 front1 back1, s.InsertRangeData r = some s1 ∧
      front.InsertRangeData r = some front1 ∧ back.InsertRangeData r = some back1 ∧
      front1.inserted = front.inserted ++ [r] ∧ back1.inserted = back.inserted ++ [r] ∧
      (s1.submaps_ = [front1, back1] ∨
        (s1.retired_ = s.retired_ ++ [front1.Finish] ∧
          s1.submaps_ = [back1, Submap.create r])) := by
  have hfi : front.InsertRangeData r =
      some { front with num_range_data := front.num_range_data + 1,
                        inserted := front.inserted ++ [r] } := by
    simp [Submap.InsertRangeData, hf]
  have hbi : back.InsertRangeData r =
      some { back with num_range_data := back.num_range_data + 1,
                       inserted := back.inserted ++ [r] } := by
    simp [Submap.InsertRangeData, hb]
  by_cases hN : back.num_range_data + 1 = s.num_range_data_
  · refine ⟨{ s with
        matching_submap_index_ := s.matching_submap_index_ + 1
        submaps_ := [{ back with num_range_data := back.num_range_data + 1,
                                 inserted := back.inserted ++ [r] }, Submap.create r]
        retired_ := s.retired_ ++
          [Submap.Finish { front with num_range_data := front.num_range_data + 1,
                                      inserted := front.inserted ++ [r] }] },
      _, _, ?_, hfi, hbi, rfl, rfl, Or.inr ⟨rfl, rfl⟩⟩
    simp [ActiveSubmaps.InsertRangeData, hs, hfi, hbi, hN]
  · refine ⟨{ s with
        submaps_ := [{ front with num_range_data := front.num_range_data + 1,
                                  inserted := front.inserted ++ [r] },
                     { back with num_range_data := back.num_range_data + 1,
                                 inserted := back.inserted ++ [r] }] },
      _, _, ?_, hfi, hbi, rfl, rfl, Or.inl rfl⟩
    simp [ActiveSubmaps.InsertRangeData, hs, hfi, hbi, hN]

/-- C13. For every threshold `N ≥ 1` and every `2 * N` scans fed to a fresh
`ActiveSubmaps`: every call returns; afterwards exactly one submap has been finished
(it received all `2 * N` scans) and exactly two are active and unfinished (one has
received the last `N` scans, the other none); and in any state with two active
unfinished submaps a scan is inserted into both. -/
theorem active_submaps_after_two_thresholds (N : Nat) (hN : 1 ≤ N) (scans : List RangeData)
    (hlen : scans.length = 2 * N) :
    (∃ s, (ActiveSubmaps.fresh N).feed scans = some s ∧
      s.retired_.length = 1 ∧ s.submaps_.length = 2 ∧
      (∀ m ∈ s.retired_, m.finished = true ∧ m.num_range_data = 2 * N ∧
        m.inserted = scans) ∧
      (∀ m ∈ s.submaps_, m.finished = false) ∧
      s.submaps_.map Submap.inserted = [scans.drop N, []] ∧
      s.submaps_.map Submap.num_range_data = [N, 0] ∧
      s.matching_submap_index_ = 1) ∧
    (∀ (s : ActiveSubmaps) (front back : Submap) (r : RangeData),
      s.submaps_ = [front, back] → front.finished = false → back.finished = false →
      ∃ s1 front1 back1, s.InsertRangeData r = some s1 ∧
        front.InsertRangeData r = some front1 ∧ back.InsertRangeData r = some back1 ∧
        front1.inserted = front.inserted ++ [r] ∧ back1.inserted = back.inserted ++ [r] ∧
        (s1.submaps_ = [front1, back1] ∨
          (s1.retired_ = s.retired_ ++ [front1.Finish] ∧
            s1.submaps_ = [back1, Submap.create r]))) := by
  refine ⟨⟨stateAfter N scans, ?_, ?_⟩, insert_two_active⟩
  · have h := feed_stateAfter N hN [] scans (by simp [hlen])
    simpa [stateAfter] using h
  · have h0 : ¬ (2 * N = 0) := by omega
    have h1 : ¬ (2 * N < N) := by omega
    simp [stateAfter, hlen, h0, h1, Submap.create]

theorem active_submaps_after_two_thresholds_witness :
    1 ≤ 3 ∧ [1, 2, 3, 4, 5, 6].length = 2 * 3 ∧
    ((∃ s, (ActiveSubmaps.fresh 3).feed [1, 2, 3, 4, 5, 6] = some s ∧
      s.retired_.length = 1 ∧ s.submaps_.length = 2 ∧
      (∀ m ∈ s.retired_, m.finished = true ∧ m.num_range_data = 2 * 3 ∧
        m.inserted = [1, 2, 3, 4, 5, 6]) ∧
      (∀ m ∈ s.submaps_, m.finished = false) ∧
      s.submaps_.map Submap.inserted = [[1, 2, 3, 4, 5, 6].drop 3, []] ∧
      s.submaps_.map Submap.num_range_data = [3, 0] ∧
      s.matching_submap_index_ = 1) ∧
    (∀ (s : ActiveSubmaps) (front back : Submap) (r : RangeData),
      s.submaps_ = [front, back] → front.finished = false → back.finished = false →
      ∃ s1 front1 back1, s.InsertRangeData r = some s1 ∧
        front.InsertRangeData r = some front1 ∧ back.InsertRangeData r = some back1 ∧
        front1.inserted = front.inserted ++ [r] ∧ back1.inserted = back.inserted ++ [r] ∧
        (s1.submaps_ = [front1, back1] ∨
          (s1.retired_ = s.retired_ ++ [front1.Finish] ∧
            s1.submaps_ = [back1, Submap.create r])))) :=
  ⟨by decide, by decide, active_submaps_after_two_thresholds 3 (by decide) [1, 2, 3, 4, 5, 6]
    (by decide)⟩

/-! ## The return value of Match -/

theorem geZero_iff (d : DoubleValue) : d.GeZero ↔ ¬ (d.Negative ∨ d = .nan) := by
  cases d with
  | nan => simp [DoubleValue.GeZero, DoubleValue.Negative]
  | negInf => simp [DoubleValue.GeZero, DoubleValue.Negative]
  | finite x => simp [DoubleValue.GeZero, DoubleValue.Negative]
  | posInf => simp [DoubleValue.GeZero, DoubleValue.Negative]

/-- C11, as stated, fails: with all four keys configured and a NaN translation weight, no
weight is negative, yet `Create` aborts in `CHECK_GE`. -/
theorem create_aborts_on_nan_weight :
    (∀ key, nanWeightDictionary key ≠ none) ∧
    (∀ d, nanWeightDictionary "translation_delta_cost_weight" = some d → ¬ d.Negative) ∧
    (∀ d, nanWeightDictionary "rotation_delta_cost_weight" = some d → ¬ d.Negative) ∧
    RealTimeCorrelativeScanMatcherOptions.Create nanWeightDictionary = none := by
  refine ⟨?_, ?_, ?_, ?_⟩
  · intro key
    unfold nanWeightDictionary
    split <;> simp
  · intro d hd
    simp [nanWeightDictionary] at hd
    subst hd
    simp [DoubleValue.Negative]
  · intro d hd
    simp [nanWeightDictionary] at hd
    subst hd
    simp only [DoubleValue.Negative, not_lt]
    norm_num
  · simp [RealTimeCorrelativeScanMatcherOptions.Create, nanWeightDictionary,
      DoubleValue.GeZero]

/-- C11, amended. `Create` succeeds exactly when `GetDouble` returns for the four keys
and both configured weights are `≥ 0`, and it then holds the four values read,
unchanged; it aborts exactly when a `GetDouble` does not return or a configured weight is
negative or NaN. -/
theorem create_succeeds_iff (parameter_dictionary : LuaParameterDictionary) :
    (∀ o, RealTimeCorrelativeScanMatcherOptions.Create parameter_dictionary = some o ↔
      parameter_dictionary "linear_search_window" = some o.linear_search_window_ ∧
      parameter_dictionary "angular_search_window" = some o.angular_search_window_ ∧
      parameter_dictionary "translation_delta_cost_weight" =
        some o.translation_delta_cost_weight_ ∧
      parameter_dictionary "rotation_delta_cost_weight" =
        some o.rotation_delta_cost_weight_ ∧
      o.translation_delta_cost_weight_.GeZero ∧ o.rotation_delta_cost_weight_.GeZero) ∧
    (RealTimeCorrelativeScanMatcherOptions.Create parameter_dictionary = none ↔
      parameter_dictionary "linear_search_window" = none ∨
      parameter_dictionary "angular_search_window" = none ∨
      parameter_dictionary "translation_delta_cost_weight" = none ∨
      parameter_dictionary "rotation_delta_cost_weight" = none ∨
      (∃ d, parameter_dictionary "translation_delta_cost_weight" = some d ∧
        (d.Negative ∨ d = .nan)) ∨
      (∃ d, parameter_dictionary "rotation_delta_cost_weight" = some d ∧
        (d.Negative ∨ d = .nan))) := by
  unfold RealTimeCorrelativeScanMatcherOptions.Create
  cases hl : parameter_dictionary "linear_search_window" with
  | none => simp
  | some l =>
    cases ha : parameter_dictionary "angular_search_window" with
    | none => simp
    | some a =>
      cases ht : parameter_dictionary "translation_delta_cost_weight" with
      | none => simp
      | some t =>
        cases hr : parameter_dictionary "rotation_delta_cost_weight" with
        | none => simp
        | some r =>
          simp only [Option.some.injEq, exists_eq_left', false_or, reduceCtorEq]
          by_cases hgt : t.GeZero
          · by_cases hgr : r.GeZero
            · rw [if_pos hgt, if_pos hgr]
              refine ⟨?_, ?_⟩
              · intro o
                constructor
                · intro h
                  simp only [Option.some.injEq] at h
                  subst h
                  exact ⟨rfl, rfl, rfl, rfl, hgt, hgr⟩
                · rintro ⟨h1, h2, h3, h4, -, -⟩
                  cases o
                  simp only at h1 h2 h3 h4
                  subst h1 h2 h3 h4
                  rfl
              · simp only [reduceCtorEq, false_iff, not_or]
                exact ⟨not_or.mp ((geZero_iff t).mp hgt), not_or.mp ((geZero_iff r).mp hgr)⟩
            · rw [if_pos hgt, if_neg hgr]
              refine ⟨?_, ?_⟩
              · intro o
                simp only [reduceCtorEq, false_iff]
                rintro ⟨-, -, -, h4, -, h6⟩
                rw [← h4] at h6
                exact hgr h6
              · simp only [true_iff]
                right
                by_contra hcon
                exact hgr ((geZero_iff r).mpr hcon)
          · rw [if_neg hgt]
            refine ⟨?_, ?_⟩
            · intro o
              simp only [reduceCtorEq, false_iff]
              rintro ⟨-, -, h3, -, h5, -⟩
              rw [← h3] at h5
              exact hgt h5
            · simp only [true_iff]
              left
              by_contra hcon
              exact hgt ((geZero_iff t).mpr hcon)

/-! ## Match with tied maxima -/

end sample_carto
